import Mathlib

/-!
Shallow embedding of the holiday synchronization engine of this repository
(`src/server/src/services/syncService.ts`, with the Calendarific fun-holiday
keyword filter taken from the repository's second copy of the sync service,
`src/unnamed/part_007`, which is identical except that its Calendarific
adapter carries the keyword filter and a hardcoded type parameter instead of
the `typeFilter` config field).

The external world (HTTP responses of the providers) is modelled as an
explicit environment (`Env`): every adapter receives the parsed outcome of
its HTTP request as an `Except` value, where `.error msg` stands for any
thrown request/parse failure (network error, non-2xx, non-iterable body)
carrying the message that `error.message` would yield.  The persistent
store (Prisma) is modelled as an explicit pure state `Db`; store writes are
appends, exactly as the engine only ever issues `findFirst`/`findMany`/
`create`.  Two fault-injection points model the store itself raising inside
a `try` block whose catch behaviour matters to the spec: `Env.rollerFault`
(the recurrence roller's `try` body raising, re-thrown by its `catch`) and
`Env.abstractFault` (the Abstract free-plan fallback's `try` body raising,
logged as a terminal error by its `catch`).  All other store operations sit
inside adapter-level `try` blocks whose catch clauses are already exercised
by the fetch-failure cases.
-/

set_option maxRecDepth 40000

/-! ## JavaScript string primitives used by the engine -/

/-- Decimal digit character, `d < 10` intended. -/
def digitChar (d : Nat) : Char := Char.ofNat (48 + d)

/-- Fuel-driven decimal rendering of a natural number (structural recursion so
that the kernel can evaluate it). -/
def toDecCharsAux : Nat → Nat → List Char
  | 0, _ => []
  | fuel + 1, n => if n < 10 then [digitChar n] else toDecCharsAux fuel (n / 10) ++ [digitChar (n % 10)]

/-- Decimal rendering of a natural number, the model of JavaScript
number-to-string conversion (`year.toString()`, `` `${year}` ``). -/
def natToDec (n : Nat) : String := String.mk (toDecCharsAux (n + 1) n)

/-- Per-character lowercasing, the model of `String.prototype.toLowerCase`. -/
def jsToLower (s : String) : String := String.mk (s.data.map Char.toLower)

/-- Seg containment on character lists: `true` iff `pat` occurs contiguously
inside the second list. -/
def containsSeg (pat : List Char) : List Char → Bool
  | [] => pat.isEmpty
  | c :: rest => pat.isPrefixOf (c :: rest) || containsSeg pat rest

/-- Model of `String.prototype.includes`. -/
def jsIncludes (s pat : String) : Bool := containsSeg pat.data s.data

/-- Splitting a character list at every occurrence of the separator; the
result is never empty, mirroring `String.prototype.split` with a
single-character separator. -/
def splitChar (c : Char) : List Char → List (List Char)
  | [] => [[]]
  | x :: xs =>
    match splitChar c xs with
    | [] => [[]]
    | g :: gs => if x = c then [] :: g :: gs else (x :: g) :: gs

/-- Model of `String.prototype.split(sep)` for a one-character separator. -/
def jsSplit (c : Char) (s : String) : List String := (splitChar c s.data).map String.mk

/-- Model of `String.prototype.padStart(2, '0')`. -/
def padStart2 (s : String) : String :=
  if s.data.length ≥ 2 then s else String.mk (List.replicate (2 - s.data.length) '0' ++ s.data)

/-- First-occurrence replacement on character lists: the model of
`String.prototype.replace` with a plain string pattern, which substitutes
only the first occurrence.  (`$`-escape expansion inside the replacement
string is not modelled; it only alters the inserted text, never the
remainder of the subject.) -/
def replaceFirstAux (pat rep : List Char) : List Char → List Char
  | [] => if pat.isEmpty then rep else []
  | c :: cs =>
    if pat.isPrefixOf (c :: cs) then rep ++ (c :: cs).drop pat.length
    else c :: replaceFirstAux pat rep cs

/-- Model of `String.prototype.replace(pat, rep)` with a string pattern. -/
def jsReplaceFirst (s pat rep : String) : String :=
  String.mk (replaceFirstAux pat.data rep.data s.data)

/-- JavaScript truthiness of an optional string (`undefined` and `""` are
falsy). -/
def truthyStr : Option String → Bool
  | none => false
  | some s => s != ""

/-- JavaScript `a || dflt` on an optional string field. -/
def strOr (o : Option String) (dflt : String) : String :=
  match o with
  | none => dflt
  | some s => if s = "" then dflt else s

/-! ## Data model (`HolidayRecord`, `SyncLogEntry`, configs) -/

/-- The closed category union of `HolidayApiConfig.category`. -/
inductive Category where
  | federal
  | «fun»
  | company
deriving DecidableEq

/-- The string stored in `HolidayRecord.category` for a config category. -/
def catName : Category → String
  | .federal => "federal"
  | .«fun» => "fun"
  | .company => "company"

/-- `CATEGORY_COLORS` of the source. -/
def CATEGORY_COLORS : Category → String
  | .federal => "#06427F"
  | .«fun» => "#7B7E77"
  | .company => "#059669"

/-- The closed `type` union of `HolidayApiConfig`. -/
inductive ApiType where
  | nager
  | calendarific
  | abstract
  | custom
deriving DecidableEq

/-- `HolidayApiConfig` of the source (`typeFilter` only feeds the request
parameters, which live in the environment). -/
structure HolidayApiConfig where
  id : String
  name : String
  enabled : Bool
  type : ApiType
  endpoint : String
  apiKey : Option String
  country : String
  color : String
  category : Category
  typeFilter : Option String
  dateField : Option String
  titleField : Option String
  responsePathToHolidays : Option String
deriving DecidableEq

/-- JavaScript truthiness of `config.apiKey` (the `if (!config.apiKey)` skip). -/
def hasApiKey (cfg : HolidayApiConfig) : Bool := truthyStr cfg.apiKey

/-- A stored holiday row.  `id` is assigned by the store at creation;
`category` is stored as a string (admin-entered rows are not restricted to
the config union).  Timestamps are not modelled: the engine never reads or
writes them. -/
structure HolidayRecord where
  id : Nat
  title : String
  date : String
  category : String
  color : String
  source : String
  visible : Bool
  recurring : Bool
deriving DecidableEq

/-- Status of a sync log entry. -/
inductive SyncStatus where
  | success
  | error
deriving DecidableEq

/-- An append-only audit record (`syncedAt` not modelled: never read). -/
structure SyncLogEntry where
  source : String
  status : SyncStatus
  message : String
deriving DecidableEq

/-- The persistent store as seen by the engine. -/
structure Db where
  holidays : List HolidayRecord
  logs : List SyncLogEntry
  nextId : Nat
deriving DecidableEq

/-- `prisma.holiday.findFirst({where: {title, date, source}})`. -/
def findFirstTriple (db : Db) (t d s : String) : Option HolidayRecord :=
  db.holidays.find? (fun r => r.title == t && r.date == d && r.source == s)

/-- `prisma.holiday.findFirst({where: {title, date}})` (the roller's lookup,
matched on title and date only). -/
def findFirstPair (db : Db) (t d : String) : Option HolidayRecord :=
  db.holidays.find? (fun r => r.title == t && r.date == d)

/-- `prisma.holiday.create` appends a fresh row. -/
def createHoliday (t d cat col src : String) (vis recur : Bool) (db : Db) : Db :=
  { db with
    holidays := db.holidays ++ [⟨db.nextId, t, d, cat, col, src, vis, recur⟩]
    nextId := db.nextId + 1 }

/-- `prisma.syncLog.create` appends an audit entry. -/
def addLog (src : String) (st : SyncStatus) (msg : String) (db : Db) : Db :=
  { db with logs := db.logs ++ [⟨src, st, msg⟩] }

/-! ## Provider response shapes -/

/-- One entry of a Nager.Date response array. -/
structure NagerHoliday where
  name : String
  date : String
deriving DecidableEq

/-- One entry of `response.data.response.holidays` of Calendarific.
`dateIso` flattens the optional chain `holiday.date?.iso`; `type` is the
provider's type tag array (optional, as accessed via `holiday.type?.`). -/
structure CalHoliday where
  name : String
  dateIso : Option String
  type : Option (List String)
deriving DecidableEq

/-- One entry of an Abstract API response array. -/
structure AbstractHoliday where
  name : String
  date_year : Option String
  date_month : Option String
  date_day : Option String
  date : Option String
deriving DecidableEq

/-- Outcome of the Abstract bulk (year-only) request.  `.fail code msg`
models a thrown request error whose response body carried
`error.code = code` (`none` when absent) and whose `error.message` is
`msg`; `.nonArray` models a 2xx body that is not an array (the adapter then
throws `'Invalid response format from API'` itself, an error with no
attached response). -/
inductive AbsBulk where
  | arr (hs : List AbstractHoliday)
  | nonArray
  | fail (code : Option String) (msg : String)
deriving DecidableEq

/-- Minimal JSON universe for the custom adapter's raw response (`undefined`
is represented by `Option` at lookup sites). -/
inductive Json where
  | null
  | bool (b : Bool)
  | num (n : Int)
  | str (s : String)
  | arr (xs : List Json)
  | obj (fields : List (String × Json))

/-- JavaScript property lookup `o?.[p]` (non-objects and missing keys give
`undefined`; index lookup on arrays is not modelled since path segments are
dot-path field names). -/
def jsGet (j : Json) (f : String) : Option Json :=
  match j with
  | .obj fields => (fields.find? (fun p => p.1 == f)).map (·.2)
  | _ => none

/-- JavaScript truthiness of a JSON value. -/
def jsTruthy : Json → Bool
  | .null => false
  | .bool b => b
  | .num n => n != 0
  | .str s => s != ""
  | .arr _ => true
  | .obj _ => true

/-- Truthiness of a possibly-`undefined` value. -/
def truthyOpt : Option Json → Bool
  | none => false
  | some j => jsTruthy j

/-- Walks `responsePathToHolidays` through the response: with a falsy path
the raw body is used, otherwise each dot-separated segment is an optional
property lookup. -/
def navigate (path : Option String) (j : Json) : Option Json :=
  if truthyStr path then
    (jsSplit '.' ((path.getD ""))).foldl (fun acc seg => acc.bind (fun x => jsGet x seg)) (some j)
  else some j

/-! ## Dedup/upsert engine -/

/-- `config.color || CATEGORY_COLORS[config.category]` (empty string is
falsy). -/
def colorOf (cfg : HolidayApiConfig) : String :=
  if cfg.color = "" then CATEGORY_COLORS cfg.category else cfg.color

/-- The shared existence-check-then-create step of every provider adapter:
looks up `(title, date, source)` and creates (with `visible = true`,
`recurring = false`, category and colour derived from the config) only when
no record matches; returns whether a creation happened. -/
def upsertProviderHoliday (cfg : HolidayApiConfig) (t d : String) (db : Db) : Bool × Db :=
  match findFirstTriple db t d cfg.id with
  | some _ => (false, db)
  | none => (true, createHoliday t d (catName cfg.category) (colorOf cfg) cfg.id true false db)

/-- One iteration of an adapter's upsert loop. -/
def upsertStep (cfg : HolidayApiConfig) (acc : Nat × Db) (td : String × String) : Nat × Db :=
  let r := upsertProviderHoliday cfg td.1 td.2 acc.2
  (acc.1 + (if r.1 then 1 else 0), r.2)

/-- An adapter's upsert loop over its normalized `(title, date)` candidates,
counting creations. -/
def runUpserts (cfg : HolidayApiConfig) (cands : List (String × String)) (db : Db) : Nat × Db :=
  cands.foldl (upsertStep cfg) (0, db)

/-! ## Nager adapter -/

/-- `syncNagerApi`: on a thrown fetch error, one `status=error` log entry
with the error's message and a zero count; otherwise upserts every entry
and writes one success log entry. -/
def syncNagerApi (fetch : Except String (List NagerHoliday)) (cfg : HolidayApiConfig)
    (year : Nat) (db : Db) : Nat × Db :=
  match fetch with
  | .error m => (0, addLog cfg.id .error m db)
  | .ok hs =>
    let r := runUpserts cfg (hs.map (fun h => (h.name, h.date))) db
    (r.1, addLog cfg.id .success s!"Synced {r.1} holidays for {year}" r.2)

/-! ## Calendarific adapter (variant with the fun-holiday keyword filter) -/

/-- The fixed fun-holiday keyword list of the source. -/
def funKeywords : List String :=
  ["day", "national", "world", "international",
   "pizza", "donut", "ice cream", "chocolate", "coffee",
   "dog", "cat", "pet", "friendship", "love"]

/-- `holiday.type?.includes(s)` (exact element membership in the provider's
type tag array). -/
def typeHas (h : CalHoliday) (s : String) : Bool :=
  match h.type with
  | none => false
  | some ts => ts.contains s

/-- `funKeywords.some(keyword => holiday.name.toLowerCase().includes(keyword.toLowerCase()))`. -/
def keywordHit (name : String) : Bool :=
  funKeywords.any (fun kw => jsIncludes (jsToLower name) (jsToLower kw))

/-- `holiday.date?.iso?.split('T')[0]` followed by the falsy-skip. -/
def calDateOf (h : CalHoliday) : Option (String × String) :=
  match h.dateIso with
  | none => none
  | some iso =>
    let dateStr := (jsSplit 'T' iso).headD ""
    if dateStr = "" then none else some (h.name, dateStr)

/-- Per-entry normalization of the Calendarific adapter: under the fun
category, entries whose type tags include `"Federal"` or `"Public"` are
skipped, as are entries without a keyword hit; then the ISO date is
truncated at `'T'` and a falsy date skips the entry. -/
def normalizeCal (cat : Category) (h : CalHoliday) : Option (String × String) :=
  if cat = Category.«fun» ∧ (typeHas h "Federal" = true ∨ typeHas h "Public" = true) then none
  else if cat = Category.«fun» ∧ keywordHit h.name = false then none
  else calDateOf h

/-- `syncCalendarificApi`: without an API key the provider is skipped with a
zero count and no log entry; a thrown fetch error yields one error log
entry and zero; otherwise the filtered entries are upserted. -/
def syncCalendarificApi (fetch : Except String (List CalHoliday)) (cfg : HolidayApiConfig)
    (year : Nat) (db : Db) : Nat × Db :=
  if hasApiKey cfg = false then (0, db)
  else
    match fetch with
    | .error m => (0, addLog cfg.id .error m db)
    | .ok hs =>
      let r := runUpserts cfg (hs.filterMap (normalizeCal cfg.category)) db
      (r.1, addLog cfg.id .success s!"Synced {r.1} holidays for {year}" r.2)

/-! ## Abstract adapter -/

/-- Date normalization of `processHolidays`: year/month/day component fields
(zero-padding month and day) take precedence; otherwise a three-part
slash-date `M/D/YYYY` is rearranged; a slash-count mismatch passes the raw
string through; entries with neither form are skipped. -/
def normalizeAbstract (h : AbstractHoliday) : Option (String × String) :=
  if truthyStr h.date_year && truthyStr h.date_month && truthyStr h.date_day then
    some (h.name,
      (h.date_year.getD "") ++ "-" ++ padStart2 (h.date_month.getD "") ++ "-" ++ padStart2 (h.date_day.getD ""))
  else
    match h.date with
    | none => none
    | some d =>
      if d = "" then none
      else
        let parts := jsSplit '/' d
        if parts.length = 3 then
          some (h.name, parts.getD 2 "" ++ "-" ++ padStart2 (parts.getD 0 "") ++ "-" ++ padStart2 (parts.getD 1 ""))
        else some (h.name, d)

/-- The shared `processHolidays` helper of the Abstract adapter (used
identically by the bulk path and the per-day fallback path). -/
def processHolidays (cfg : HolidayApiConfig) (hs : List AbstractHoliday) (db : Db) : Nat × Db :=
  runUpserts cfg (hs.filterMap normalizeAbstract) db

/-- The leap-year test of the source:
`(year % 4 === 0 && year % 100 !== 0) || year % 400 === 0`. -/
def isLeapYear (y : Nat) : Bool := (y % 4 == 0 && y % 100 != 0) || y % 400 == 0

/-- `daysInYear` of the fallback loop. -/
def daysInYear (y : Nat) : Nat := if isLeapYear y then 366 else 365

/-- The day-of-year indices `1 .. daysInYear` iterated by the fallback loop. -/
def dayNums (y : Nat) : List Nat := (List.range (daysInYear y)).map (· + 1)

/-- Month lengths of a (non-)leap year. -/
def monthLens (leap : Bool) : List Nat :=
  [31, if leap then 29 else 28, 31, 30, 31, 30, 31, 31, 30, 31, 30, 31]

/-- Helper converting a day-of-year to a month/day pair. -/
def mdFromLens : Nat → List Nat → Nat → Nat × Nat
  | m, [], n => (m, n)
  | m, len :: rest, n => if n ≤ len then (m, n) else mdFromLens (m + 1) rest (n - len)

/-- `new Date(year, 0, dayOfYear)` followed by `getMonth() + 1` and
`getDate()`: civil-calendar conversion of a day-of-year. -/
def dayOfYearToMonthDay (leap : Bool) (n : Nat) : Nat × Nat := mdFromLens 1 (monthLens leap) n

/-- All calendar days of a year in order, for stating that the fallback
queries each exactly once. -/
def allDaysList (leap : Bool) : List (Nat × Nat) :=
  ((monthLens leap).enum).flatMap (fun p => (List.range p.2).map (fun j => (p.1 + 1, j + 1)))

/-- One iteration of the free-plan fallback loop: the per-day request's
failure is swallowed silently; a non-empty array is processed by
`processHolidays` (a non-array or empty body is skipped, which is
observationally the empty array). -/
def fallbackStep (cfg : HolidayApiConfig) (perDay : Nat → Nat → Except String (List AbstractHoliday))
    (leap : Bool) (acc : Nat × Db) (n : Nat) : Nat × Db :=
  match perDay (dayOfYearToMonthDay leap n).1 (dayOfYearToMonthDay leap n).2 with
  | .error _ => acc
  | .ok hs =>
    if hs.length > 0 then
      (acc.1 + (processHolidays cfg hs acc.2).1, (processHolidays cfg hs acc.2).2)
    else acc

/-- `syncAbstractApi`: no key skips silently; a bulk array is processed and
logged as success; a non-array body becomes the thrown
`'Invalid response format from API'` error (no response attached, so the
`payment_required` check cannot match) logged as an error; a bulk error
whose response carries `error.code === 'payment_required'` redirects into
the day-by-day fallback (`fault` models the fallback's own `try` body
raising, logged as `'Free plan sync failed'`); any other bulk error is
logged with its message and yields zero. -/
def syncAbstractApi (bulk : AbsBulk) (perDay : Nat → Nat → Except String (List AbstractHoliday))
    (fault : Bool) (cfg : HolidayApiConfig) (year : Nat) (db : Db) : Nat × Db :=
  if hasApiKey cfg = false then (0, db)
  else
    match bulk with
    | .arr hs =>
      let r := processHolidays cfg hs db
      (r.1, addLog cfg.id .success s!"Synced {r.1} holidays for {year}" r.2)
    | .nonArray => (0, addLog cfg.id .error "Invalid response format from API" db)
    | .fail code m =>
      if code = some "payment_required" then
        if fault then (0, addLog cfg.id .error "Free plan sync failed" db)
        else
          let r := (dayNums year).foldl (fallbackStep cfg perDay (isLeapYear year)) (0, db)
          (r.1, addLog cfg.id .success s!"Synced {r.1} holidays for {year} (free plan - day by day)" r.2)
      else (0, addLog cfg.id .error m db)

/-! ## Custom adapter -/

/-- `buildCustomUrl`: the source's
`config.endpoint.replace('{year}', year.toString()).replace('{country}', config.country)` —
each `replace` substitutes only the first occurrence of its placeholder. -/
def buildCustomUrl (cfg : HolidayApiConfig) (year : Nat) : String :=
  jsReplaceFirst (jsReplaceFirst cfg.endpoint "{year}" (natToDec year)) "{country}" cfg.country

/-- Outcome of reading one custom-response entry. -/
inductive EntryOut where
  | skip
  | use (t d : String)
  | invalid
deriving DecidableEq

/-- Reads `holiday[dateField]` and `holiday[titleField]`; a falsy value in
either skips the entry.  A truthy non-string value would be rejected by the
store's `create` with a thrown validation error (aborting the remaining
entries); that is the `.invalid` outcome.  The exact validation message is
not modelled. -/
def customEntry (tf df : String) (h : Json) : EntryOut :=
  let dateV := jsGet h df
  let titleV := jsGet h tf
  if truthyOpt dateV = false ∨ truthyOpt titleV = false then .skip
  else
    match titleV, dateV with
    | some (.str t), some (.str d) => .use t d
    | _, _ => .invalid

/-- The custom adapter's entry loop; a thrown store validation error aborts
the loop, carrying the state written so far. -/
def customLoop (cfg : HolidayApiConfig) (tf df : String) :
    List Json → Nat → Db → Except (String × Db) (Nat × Db)
  | [], n, db => .ok (n, db)
  | h :: rest, n, db =>
    match customEntry tf df h with
    | .skip => customLoop cfg tf df rest n db
    | .use t d =>
      let r := upsertProviderHoliday cfg t d db
      customLoop cfg tf df rest (n + (if r.1 then 1 else 0)) r.2
    | .invalid => .error ("Invalid holiday field value", db)

/-- `syncCustomApi`: a thrown request error yields one error log entry and
zero; a response whose walked value is not an array yields zero with **no**
log entry; otherwise the entries are upserted under the configured field
names (defaulting to `name`/`date`) and one log entry is written. -/
def syncCustomApi (fetch : Except String Json) (cfg : HolidayApiConfig)
    (year : Nat) (db : Db) : Nat × Db :=
  match fetch with
  | .error m => (0, addLog cfg.id .error m db)
  | .ok data =>
    match navigate cfg.responsePathToHolidays data with
    | some (.arr hs) =>
      let tf := strOr cfg.titleField "name"
      let df := strOr cfg.dateField "date"
      match customLoop cfg tf df hs 0 db with
      | .ok r => (r.1, addLog cfg.id .success s!"Synced {r.1} holidays for {year}" r.2)
      | .error (m, db') => (0, addLog cfg.id .error m db')
    | _ => (0, db)

/-! ## Recurrence roller -/

/-- `const [, month, day] = holiday.date.split('-')` followed by
`` `${year}-${month}-${day}` ``: a missing destructured part interpolates as
the literal `"undefined"`. -/
def mkDate (y : Nat) (m d : String) : String := natToDec y ++ "-" ++ m ++ "-" ++ d

/-- The target date a record rolls to. -/
def rollTarget (year : Nat) (dateS : String) : String :=
  let parts := jsSplit '-' dateS
  mkDate year (parts.getD 1 "undefined") (parts.getD 2 "undefined")

/-- One iteration of the roller: lookup on `(title, newDate)` only; a
creation copies the original's category, colour, source and visibility and
forces `recurring = true`. -/
def rollStep (year : Nat) (acc : Nat × Db) (h : HolidayRecord) : Nat × Db :=
  match findFirstPair acc.2 h.title (rollTarget year h.date) with
  | some _ => acc
  | none =>
    (acc.1 + 1,
     createHoliday h.title (rollTarget year h.date) h.category h.color h.source h.visible true acc.2)

/-- `syncRecurringHolidays`: reads every record with `recurring = true` and
rolls each to the target year.  `fault` models the `try` body raising (a
store failure); the `catch` logs to the console only and **re-throws**, so
the error propagates to the caller. -/
def syncRecurringHolidays (fault : Option String) (year : Nat) (db : Db) :
    Except (String × Db) (Nat × Db) :=
  match fault with
  | some m => .error (m, db)
  | none => .ok ((db.holidays.filter (·.recurring)).foldl (rollStep year) (0, db))

/-! ## Orchestrator -/

/-- Behaviour of the outside world during one sync: the parsed outcome of
every provider request, plus the two store fault-injection points described
in the header. -/
structure Env where
  nager : HolidayApiConfig → Nat → Except String (List NagerHoliday)
  calendarific : HolidayApiConfig → Nat → Except String (List CalHoliday)
  abstractBulk : HolidayApiConfig → Nat → AbsBulk
  abstractDay : HolidayApiConfig → Nat → Nat → Nat → Except String (List AbstractHoliday)
  abstractFault : HolidayApiConfig → Nat → Bool
  custom : HolidayApiConfig → Nat → Except String Json
  rollerFault : Option String

/-- `syncFromApi`: dispatch on the config's type tag. -/
def syncFromApi (env : Env) (cfg : HolidayApiConfig) (year : Nat) (db : Db) : Nat × Db :=
  match cfg.type with
  | .nager => syncNagerApi (env.nager cfg year) cfg year db
  | .calendarific => syncCalendarificApi (env.calendarific cfg year) cfg year db
  | .abstract =>
    syncAbstractApi (env.abstractBulk cfg year) (env.abstractDay cfg year)
      (env.abstractFault cfg year) cfg year db
  | .custom => syncCustomApi (env.custom cfg year) cfg year db

/-- Aggregated result of `syncHolidays`. -/
structure SyncResult where
  total : Nat
  recurring : Nat
  details : List (String × Nat)
deriving DecidableEq

/-- `details[config.id] = count`: JavaScript object assignment (replace in
place if present, else append). -/
def setDetail (l : List (String × Nat)) (k : String) (v : Nat) : List (String × Nat) :=
  if l.any (fun p => p.1 == k) then l.map (fun p => if p.1 == k then (p.1, v) else p)
  else l ++ [(k, v)]

/-- The orchestrator's sequential per-provider loop. -/
def syncLoop (env : Env) (year : Nat) :
    List HolidayApiConfig → Nat × List (String × Nat) × Db → Nat × List (String × Nat) × Db
  | [], acc => acc
  | cfg :: rest, acc =>
    let r := syncFromApi env cfg year acc.2.2
    syncLoop env year rest (acc.1 + r.1, setDetail acc.2.1 cfg.id r.1, r.2)

/-- `syncHolidays` (the top-level `runSync`): with no enabled config it
returns all-zero counts immediately; otherwise it runs every enabled
config's adapter in listed order, then the recurrence roller, whose
re-thrown error (if any) propagates out as the `.error` case. -/
def syncHolidays (env : Env) (configs : List HolidayApiConfig) (year : Nat) (db : Db) :
    Except (String × Db) (SyncResult × Db) :=
  let enabledConfigs := configs.filter (·.enabled)
  if enabledConfigs.isEmpty then .ok (⟨0, 0, []⟩, db)
  else
    let res := syncLoop env year enabledConfigs (0, [], db)
    match syncRecurringHolidays env.rollerFault year res.2.2 with
    | .error e => .error e
    | .ok (recCount, db') => .ok (⟨res.1, recCount, res.2.1⟩, db')

/-- The store state an engine run ends in, whether it returned or threw. -/
def dbOut : Except (String × Db) (SyncResult × Db) → Db
  | .error (_, db) => db
  | .ok (_, db) => db

/-- Some record with exactly this dedup triple exists. -/
def CoveredTriple (db : Db) (t d s : String) : Prop :=
  ∃ r ∈ db.holidays, r.title = t ∧ r.date = d ∧ r.source = s

/-- Some record with this title and date exists (the roller's weaker key). -/
def CoveredPair (db : Db) (t d : String) : Prop :=
  ∃ r ∈ db.holidays, r.title = t ∧ r.date = d

/-- The store only grows by appending during a sync. -/
def DbExtends (db db' : Db) : Prop :=
  (∃ hs, db'.holidays = db.holidays ++ hs) ∧ (∃ ls, db'.logs = db.logs ++ ls)

/-- JavaScript `Array.isArray` on a possibly-`undefined` value. -/
def jsIsArray : Option Json → Bool
  | some (.arr _) => true
  | _ => false

/-- The `(title, date)` pairs the custom entry loop upserts: the entries
before the first store-rejected one. -/
def customCands (tf df : String) : List Json → List (String × String)
  | [] => []
  | h :: rest =>
    match customEntry tf df h with
    | .skip => customCands tf df rest
    | .use t d => (t, d) :: customCands tf df rest
    | .invalid => []

/-- The `(title, date)` pairs upserted per day by the Abstract free-plan
fallback. -/
def absDayCands (perDay : Nat → Nat → Except String (List AbstractHoliday)) (leap : Bool) :
    List Nat → List (String × String)
  | [] => []
  | n :: rest =>
    (match perDay (dayOfYearToMonthDay leap n).1 (dayOfYearToMonthDay leap n).2 with
     | .error _ => []
     | .ok hs => hs.filterMap normalizeAbstract) ++ absDayCands perDay leap rest

/-- All `(title, date)` pairs an adapter run under this environment upserts
(in order). -/
def candsFor (env : Env) (cfg : HolidayApiConfig) (year : Nat) : List (String × String) :=
  match cfg.type with
  | .nager =>
    match env.nager cfg year with
    | .error _ => []
    | .ok hs => hs.map (fun h => (h.name, h.date))
  | .calendarific =>
    if hasApiKey cfg = false then []
    else
      match env.calendarific cfg year with
      | .error _ => []
      | .ok hs => hs.filterMap (normalizeCal cfg.category)
  | .abstract =>
    if hasApiKey cfg = false then []
    else
      match env.abstractBulk cfg year with
      | .arr hs => hs.filterMap normalizeAbstract
      | .nonArray => []
      | .fail code _ =>
        if code = some "payment_required" then
          if env.abstractFault cfg year then []
          else absDayCands (env.abstractDay cfg year) (isLeapYear year) (dayNums year)
        else []
  | .custom =>
    match env.custom cfg year with
    | .error _ => []
    | .ok data =>
      match navigate cfg.responsePathToHolidays data with
      | some (.arr hs) => customCands (strOr cfg.titleField "name") (strOr cfg.dateField "date") hs
      | _ => []

/-- Every candidate this adapter would upsert is already present. -/
def Saturated (env : Env) (cfg : HolidayApiConfig) (year : Nat) (db : Db) : Prop :=
  ∀ p ∈ candsFor env cfg year, CoveredTriple db p.1 p.2 cfg.id

/-- The provider's fetch/parse throws with message `m` and the error is not
redirected into the Abstract free-plan fallback (a `payment_required`
signal is specially handled, not treated as an uncaught fetch error). -/
def FetchFails (env : Env) (cfg : HolidayApiConfig) (year : Nat) (m : String) : Prop :=
  match cfg.type with
  | .nager => env.nager cfg year = .error m
  | .calendarific => hasApiKey cfg = true ∧ env.calendarific cfg year = .error m
  | .abstract => hasApiKey cfg = true ∧
      ((∃ code, env.abstractBulk cfg year = .fail code m ∧ code ≠ some "payment_required")
        ∨ (env.abstractBulk cfg year = .nonArray ∧ m = "Invalid response format from API"))
  | .custom => env.custom cfg year = .error m

/-- Every recurring record's roll target for this year is already present. -/
def RollerSat (year : Nat) (db : Db) : Prop :=
  ∀ r ∈ db.holidays, r.recurring = true → CoveredPair db r.title (rollTarget year r.date)

/-- No two records share a `(title, date, source)` dedup triple. -/
def UniqueTriples (l : List HolidayRecord) : Prop :=
  l.Pairwise (fun a b => ¬(a.title = b.title ∧ a.date = b.date ∧ a.source = b.source))

/-- Strict day ordering used to show the fallback's day list has no
duplicates. -/
def dayLtB (p q : Nat × Nat) : Bool := p.1 < q.1 || (p.1 == q.1 && p.2 < q.2)

/-- Adjacent-pair check that a day list is strictly increasing. -/
def dayChainB : List (Nat × Nat) → Bool
  | [] => true
  | [_] => true
  | p :: q :: rest => dayLtB p q && dayChainB (q :: rest)

/-- The three adapter-level facts every provider adapter satisfies: the run
only appends (holidays characterized by the candidate list, at most one log
entry); afterwards every candidate is covered; and on a covered store the
run creates nothing and only logs. -/
def AdapterFacts (env : Env) (cfg : HolidayApiConfig) (year : Nat) (db : Db) : Prop :=
  (∃ ds ls, (syncFromApi env cfg year db).2.holidays = db.holidays ++ ds
    ∧ (syncFromApi env cfg year db).2.logs = db.logs ++ ls
    ∧ ls.length ≤ 1
    ∧ ∀ r ∈ ds, ∃ p ∈ candsFor env cfg year, r.title = p.1 ∧ r.date = p.2 ∧ r.source = cfg.id)
  ∧ Saturated env cfg year (syncFromApi env cfg year db).2
  ∧ (Saturated env cfg year db →
      ∃ ls, syncFromApi env cfg year db = (0, { db with logs := db.logs ++ ls }))

/-- Decidable equality for request outcomes (needed to evaluate witness
hypotheses). -/
instance {ε α : Type} [DecidableEq ε] [DecidableEq α] : DecidableEq (Except ε α)
  | .ok x, .ok y =>
    if h : x = y then .isTrue (h ▸ rfl) else .isFalse (fun hc => h (Except.ok.inj hc))
  | .error x, .error y =>
    if h : x = y then .isTrue (h ▸ rfl) else .isFalse (fun hc => h (Except.error.inj hc))
  | .ok _, .error _ => .isFalse (fun hc => Except.noConfusion hc)
  | .error _, .ok _ => .isFalse (fun hc => Except.noConfusion hc)

/-! ## Concrete fixtures for witnesses and counterexamples -/

/-- An enabled Nager.Date config (the built-in default, enabled). -/
def cfgNager : HolidayApiConfig :=
  ⟨"nager-us", "Nager.Date (Federal)", true, .nager, "https://date.nager.at/api/v3",
   none, "US", "#3B82F6", .federal, none, none, none, none⟩

/-- An enabled Calendarific config categorized as fun. -/
def cfgCal : HolidayApiConfig :=
  ⟨"calendarific-us", "Calendarific (Fun)", true, .calendarific, "https://calendarific.com/api/v2",
   some "key123", "US", "#10B981", .«fun», none, none, none, none⟩

/-- An enabled Abstract config with an API key. -/
def cfgAbs : HolidayApiConfig :=
  ⟨"abstract-us", "Abstract", true, .abstract, "https://holidays.abstractapi.com/v1",
   some "key456", "US", "", .federal, none, none, none, none⟩

/-- An enabled custom config whose endpoint repeats the year placeholder. -/
def cfgCustom : HolidayApiConfig :=
  ⟨"custom-1", "Custom API", true, .custom, "https://api.example.com/{year}/{year}/holidays",
   none, "US", "#123456", .company, none, none, none, none⟩

/-- An enabled custom config whose endpoint repeats the country placeholder. -/
def cfgCustomCty : HolidayApiConfig :=
  ⟨"custom-2", "Custom API 2", true, .custom, "https://api.example.com/{country}/x/{country}",
   none, "US", "#123456", .company, none, none, none, none⟩

/-- The empty store. -/
def dbEmpty : Db := ⟨[], [], 0⟩

/-- A quiet environment: every request succeeds with no holidays. -/
def envOkEmpty : Env :=
  ⟨fun _ _ => .ok [], fun _ _ => .ok [], fun _ _ => .arr [], fun _ _ _ _ => .ok [],
   fun _ _ => false, fun _ _ => .ok (Json.arr []), none⟩

/-- Like `envOkEmpty` but the roller's store read raises. -/
def envRollerFault : Env := { envOkEmpty with rollerFault := some "database connection lost" }

/-- Like `envOkEmpty` but the custom response body is a non-array object. -/
def envCustomNonArray : Env := { envOkEmpty with custom := fun _ _ => .ok (Json.obj []) }

/-- Like `envOkEmpty` but the Nager fetch yields a single holiday. -/
def envOneNager : Env :=
  { envOkEmpty with nager := fun _ _ => .ok [⟨"Independence Day", "2025-07-04"⟩] }

/-- Like `envOkEmpty` but the Nager fetch throws. -/
def envNagerFail : Env := { envOkEmpty with nager := fun _ _ => .error "network down" }

/-- An Abstract per-day holiday reported on January 8. -/
def absHol8 : AbstractHoliday := ⟨"Day Eight Holiday", some "2025", some "1", some "8", none⟩

/-- Free-plan Abstract environment: the bulk query fails with
`payment_required` and only January 8 has a holiday. -/
def envAbsFree : Env :=
  { envOkEmpty with
    abstractBulk := fun _ _ => .fail (some "payment_required") "Payment required"
    abstractDay := fun _ _ mo d => if mo = 1 ∧ d = 8 then .ok [absHol8] else .ok [] }

/-- Like `envAbsFree` but the fallback body raises. -/
def envAbsFault : Env := { envAbsFree with abstractFault := fun _ _ => true }

/-- A Calendarific novelty holiday (keyword hit, non-federal type). -/
def calFunHol : CalHoliday :=
  ⟨"National Pizza Day", some "2025-02-09T00:00:00", some ["Observance"]⟩

/-- A Calendarific federal holiday (typed Federal). -/
def calFedHol : CalHoliday :=
  ⟨"Independence Day", some "2025-07-04T00:00:00", some ["Federal", "National holiday"]⟩

/-- A manually entered recurring holiday. -/
def recPicnic : HolidayRecord :=
  ⟨1, "Company Picnic", "2024-03-15", "company", "#059669", "manual", true, true⟩

/-- A store holding only the recurring picnic. -/
def dbPicnic : Db := ⟨[recPicnic], [], 2⟩

/-- The stored row the Nager fixture would create. -/
def recIndep : HolidayRecord :=
  ⟨0, "Independence Day", "2025-07-04", "federal", "#3B82F6", "nager-us", true, false⟩

/-- A store already holding the Nager fixture's row. -/
def dbIndep : Db := ⟨[recIndep], [], 1⟩

/-- The record the fun-filtered Calendarific fixture creates. -/
def recPizza : HolidayRecord :=
  ⟨0, "National Pizza Day", "2025-02-09", "fun", "#10B981", "calendarific-us", true, false⟩

/-- The store after the Calendarific fixture run. -/
def dbCalOut : Db :=
  ⟨[recPizza], [⟨"calendarific-us", .success, "Synced 1 holidays for 2025"⟩], 1⟩

instance (db : Db) (t d s : String) : Decidable (CoveredTriple db t d s) :=
  decidable_of_iff (∃ r ∈ db.holidays, r.title = t ∧ r.date = d ∧ r.source = s) Iff.rfl

instance (db : Db) (t d : String) : Decidable (CoveredPair db t d) :=
  decidable_of_iff (∃ r ∈ db.holidays, r.title = t ∧ r.date = d) Iff.rfl

/-! ## Basic facts about the string primitives -/

theorem containsSeg_append (pat a b : List Char) : containsSeg pat (a ++ pat ++ b) = true := by
  induction a with
  | nil =>
    simp only [List.nil_append]
    cases hpb : pat ++ b with
    | nil =>
      rcases List.append_eq_nil.mp hpb with ⟨h1, h2⟩
      subst h1; subst h2
      simp [containsSeg]
    | cons x rest =>
      simp only [containsSeg, Bool.or_eq_true]
      left
      rw [← hpb]
      exact List.isPrefixOf_iff_prefix.mpr (List.prefix_append pat b)
  | cons x a ih =>
    simp only [List.cons_append, containsSeg, Bool.or_eq_true]
    right
    exact ih

theorem replaceFirstAux_of_not_contains (pat rep l : List Char)
    (h : containsSeg pat l = false) : replaceFirstAux pat rep l = l := by
  induction l with
  | nil =>
    simp only [containsSeg] at h
    simp [replaceFirstAux, h]
  | cons c cs ih =>
    simp only [containsSeg, Bool.or_eq_false_iff] at h
    simp [replaceFirstAux, h.1, ih h.2]

theorem replaceFirstAux_prefix_case (pat rep t : List Char) (hp : pat ≠ []) :
    replaceFirstAux pat rep (pat ++ t) = rep ++ t := by
  cases hpa : pat with
  | nil => exact absurd hpa hp
  | cons p0 pr =>
    have hpre : (p0 :: pr).isPrefixOf ((p0 :: pr) ++ t) = true :=
      List.isPrefixOf_iff_prefix.mpr (List.prefix_append _ _)
    show replaceFirstAux (p0 :: pr) rep (p0 :: (pr ++ t)) = rep ++ t
    rw [replaceFirstAux]
    simp only [List.cons_append] at hpre
    rw [hpre]
    simp only [if_true]
    have hsh : p0 :: (pr ++ t) = (p0 :: pr) ++ t := rfl
    rw [hsh, List.drop_left]

theorem containsSeg_replaceFirstAux_two (pat rep : List Char) (hp : pat ≠ [])
    (a b c : List Char) :
    containsSeg pat (replaceFirstAux pat rep (a ++ pat ++ (b ++ pat ++ c))) = true := by
  induction a with
  | nil =>
    simp only [List.nil_append]
    rw [List.append_assoc] at *
    rw [replaceFirstAux_prefix_case pat rep _ hp]
    have h2 := containsSeg_append pat (rep ++ b) c
    simpa [List.append_assoc] using h2
  | cons x a ih =>
    by_cases hpre : pat.isPrefixOf (x :: (a ++ pat ++ (b ++ pat ++ c))) = true
    · have hunf : replaceFirstAux pat rep ((x :: a) ++ pat ++ (b ++ pat ++ c))
          = rep ++ (x :: (a ++ pat ++ (b ++ pat ++ c))).drop pat.length := by
        simp only [List.cons_append]
        rw [replaceFirstAux, hpre]
        simp
      rw [hunf]
      have hlen : pat.length ≤ ((x :: a) ++ pat ++ b).length := by
        simp only [List.length_append, List.length_cons]
        omega
      have hx : x :: (a ++ pat ++ (b ++ pat ++ c)) = ((x :: a) ++ pat ++ b) ++ (pat ++ c) := by
        simp [List.append_assoc]
      have hdrop : (x :: (a ++ pat ++ (b ++ pat ++ c))).drop pat.length
          = ((x :: a) ++ pat ++ b).drop pat.length ++ (pat ++ c) := by
        rw [hx, List.drop_append_of_le_length hlen]
      rw [hdrop]
      have h2 := containsSeg_append pat (rep ++ (((x :: a) ++ pat ++ b).drop pat.length)) c
      simpa [List.append_assoc] using h2
    · rw [Bool.not_eq_true] at hpre
      have hunf : replaceFirstAux pat rep ((x :: a) ++ pat ++ (b ++ pat ++ c))
          = x :: replaceFirstAux pat rep (a ++ pat ++ (b ++ pat ++ c)) := by
        simp only [List.cons_append]
        rw [replaceFirstAux, hpre]
        simp
      rw [hunf]
      simp only [containsSeg, Bool.or_eq_true]
      right
      exact ih

theorem splitChar_ne_nil (c : Char) (l : List Char) : splitChar c l ≠ [] := by
  cases l with
  | nil => simp [splitChar]
  | cons x xs =>
    simp only [splitChar]
    match h : splitChar c xs with
    | [] => simp
    | g :: gs =>
      by_cases hx : x = c <;> simp [hx]

theorem splitChar_of_not_mem (c : Char) (l : List Char) (h : c ∉ l) :
    splitChar c l = [l] := by
  induction l with
  | nil => rfl
  | cons x xs ih =>
    have hx : x ≠ c := fun he => h (he ▸ List.mem_cons_self x xs)
    have hxs : c ∉ xs := fun hm => h (List.mem_cons_of_mem x hm)
    simp only [splitChar, ih hxs]
    simp [hx]

theorem splitChar_append_sep (c : Char) (a rest : List Char) (h : c ∉ a) :
    splitChar c (a ++ c :: rest) = a :: splitChar c rest := by
  induction a with
  | nil =>
    simp only [List.nil_append, splitChar]
    match hr : splitChar c rest with
    | [] => exact absurd hr (splitChar_ne_nil c rest)
    | g :: gs => simp
  | cons x a ih =>
    have hx : x ≠ c := fun he => h (he ▸ List.mem_cons_self x a)
    have ha : c ∉ a := fun hm => h (List.mem_cons_of_mem x hm)
    show splitChar c (x :: (a ++ c :: rest)) = (x :: a) :: splitChar c rest
    rw [splitChar, ih ha]
    simp [hx]

theorem mem_splitChar_not_mem (c : Char) (l : List Char) :
    ∀ g ∈ splitChar c l, c ∉ g := by
  induction l with
  | nil =>
    intro g hg
    simp [splitChar] at hg
    simp [hg]
  | cons x xs ih =>
    intro g hg
    simp only [splitChar] at hg
    match hr : splitChar c xs with
    | [] => exact absurd hr (splitChar_ne_nil c xs)
    | g0 :: gs =>
      rw [hr] at hg
      by_cases hx : x = c
      · simp only [hx, if_true] at hg
        rcases List.mem_cons.mp hg with h1 | h2
        · simp [h1]
        · exact ih g (hr ▸ h2)
      · simp only [hx, if_false] at hg
        rcases List.mem_cons.mp hg with h1 | h2
        · subst h1
          intro hm
          rcases List.mem_cons.mp hm with h3 | h4
          · exact hx h3.symm
          · exact ih g0 (hr ▸ List.mem_cons_self g0 gs) h4
        · exact ih g (hr ▸ List.mem_cons_of_mem g0 h2)

theorem digitChar_ne_dash (d : Nat) (h : d < 10) : digitChar d ≠ '-' := by
  interval_cases d <;> decide

theorem toDecCharsAux_no_dash (fuel n : Nat) : '-' ∉ toDecCharsAux fuel n := by
  induction fuel generalizing n with
  | zero => simp [toDecCharsAux]
  | succ fuel ih =>
    simp only [toDecCharsAux]
    by_cases h : n < 10
    · simp only [h, if_true, List.mem_singleton]
      exact fun he => digitChar_ne_dash n h he.symm
    · simp only [h, if_false, List.mem_append, List.mem_singleton]
      rintro (hm | he)
      · exact ih (n / 10) hm
      · exact digitChar_ne_dash (n % 10) (Nat.mod_lt n (by omega)) he.symm

theorem natToDec_no_dash (y : Nat) : '-' ∉ (natToDec y).data :=
  toDecCharsAux_no_dash (y + 1) y

/-! ## Date string facts for the roller -/

theorem mkDate_data (y : Nat) (m d : String) :
    (mkDate y m d).data = (natToDec y).data ++ '-' :: (m.data ++ '-' :: d.data) := by
  show ((natToDec y ++ "-" ++ m ++ "-" ++ d) : String).data = _
  simp [String.data_append, List.append_assoc]

theorem jsSplit_mkDate (y : Nat) (m d : String)
    (hm : '-' ∉ m.data) (hd : '-' ∉ d.data) :
    jsSplit '-' (mkDate y m d) = [natToDec y, m, d] := by
  unfold jsSplit
  rw [mkDate_data, splitChar_append_sep _ _ _ (natToDec_no_dash y),
    splitChar_append_sep _ _ _ hm, splitChar_of_not_mem _ _ hd]
  simp

theorem rollTarget_mkDate (y : Nat) (m d : String)
    (hm : '-' ∉ m.data) (hd : '-' ∉ d.data) :
    rollTarget y (mkDate y m d) = mkDate y m d := by
  unfold rollTarget
  rw [jsSplit_mkDate y m d hm hd]
  rfl

theorem jsSplit_part_no_dash (s p : String) (hp : p ∈ jsSplit '-' s) : '-' ∉ p.data := by
  unfold jsSplit at hp
  rcases List.mem_map.mp hp with ⟨g, hg, he⟩
  subst he
  exact mem_splitChar_not_mem '-' s.data g hg

theorem getD_no_dash (l : List String) (h : ∀ p ∈ l, '-' ∉ p.data) (i : Nat) :
    '-' ∉ (l.getD i "undefined").data := by
  rcases hg : l[i]? with _ | p
  · have he : l.getD i "undefined" = "undefined" := by simp [List.getD, hg]
    rw [he]
    decide
  · have hmem : p ∈ l := List.mem_iff_getElem?.mpr ⟨i, hg⟩
    have he : l.getD i "undefined" = p := by simp [List.getD, hg]
    rw [he]
    exact h p hmem

theorem rollTarget_idem (y : Nat) (s : String) :
    rollTarget y (rollTarget y s) = rollTarget y s := by
  have hm : '-' ∉ ((jsSplit '-' s).getD 1 "undefined").data :=
    getD_no_dash _ (fun p hp => jsSplit_part_no_dash s p hp) 1
  have hd : '-' ∉ ((jsSplit '-' s).getD 2 "undefined").data :=
    getD_no_dash _ (fun p hp => jsSplit_part_no_dash s p hp) 2
  show rollTarget y (mkDate y ((jsSplit '-' s).getD 1 "undefined")
      ((jsSplit '-' s).getD 2 "undefined")) = _
  unfold rollTarget
  rw [jsSplit_mkDate y _ _ hm hd]
  simp [List.getD]

/-! ## Covered predicates and growth ordering on the store -/

theorem findFirstTriple_eq_none_iff (db : Db) (t d s : String) :
    findFirstTriple db t d s = none ↔ ¬ CoveredTriple db t d s := by
  unfold findFirstTriple CoveredTriple
  rw [List.find?_eq_none]
  constructor
  · rintro h ⟨r, hr, h1, h2, h3⟩
    exact h r hr (by simp [h1, h2, h3])
  · intro h r hr hp
    simp only [Bool.and_eq_true, beq_iff_eq] at hp
    exact h ⟨r, hr, hp.1.1, hp.1.2, hp.2⟩

theorem findFirstPair_eq_none_iff (db : Db) (t d : String) :
    findFirstPair db t d = none ↔ ¬ CoveredPair db t d := by
  unfold findFirstPair CoveredPair
  rw [List.find?_eq_none]
  constructor
  · rintro h ⟨r, hr, h1, h2⟩
    exact h r hr (by simp [h1, h2])
  · intro h r hr hp
    simp only [Bool.and_eq_true, beq_iff_eq] at hp
    exact h ⟨r, hr, hp.1, hp.2⟩

theorem DbExtends.refl (db : Db) : DbExtends db db := ⟨⟨[], by simp⟩, ⟨[], by simp⟩⟩

theorem DbExtends.trans {db1 db2 db3 : Db} (h1 : DbExtends db1 db2) (h2 : DbExtends db2 db3) :
    DbExtends db1 db3 := by
  obtain ⟨⟨hs1, e1⟩, ⟨ls1, f1⟩⟩ := h1
  obtain ⟨⟨hs2, e2⟩, ⟨ls2, f2⟩⟩ := h2
  exact ⟨⟨hs1 ++ hs2, by rw [e2, e1, List.append_assoc]⟩,
    ⟨ls1 ++ ls2, by rw [f2, f1, List.append_assoc]⟩⟩

theorem CoveredTriple.mono_triple {db db' : Db} (h : DbExtends db db') {t d s : String}
    (hc : CoveredTriple db t d s) : CoveredTriple db' t d s := by
  obtain ⟨⟨hs, e⟩, _⟩ := h
  obtain ⟨r, hr, hp⟩ := hc
  exact ⟨r, by rw [e]; exact List.mem_append_left _ hr, hp⟩

theorem CoveredPair.mono_pair {db db' : Db} (h : DbExtends db db') {t d : String}
    (hc : CoveredPair db t d) : CoveredPair db' t d := by
  obtain ⟨⟨hs, e⟩, _⟩ := h
  obtain ⟨r, hr, hp⟩ := hc
  exact ⟨r, by rw [e]; exact List.mem_append_left _ hr, hp⟩

theorem addLog_extends (src : String) (st : SyncStatus) (msg : String) (db : Db) :
    DbExtends db (addLog src st msg db) :=
  ⟨⟨[], by simp [addLog]⟩, ⟨[⟨src, st, msg⟩], rfl⟩⟩

theorem addLog_holidays (src : String) (st : SyncStatus) (msg : String) (db : Db) :
    (addLog src st msg db).holidays = db.holidays := rfl

theorem createHoliday_extends (t d cat col src : String) (vis recur : Bool) (db : Db) :
    DbExtends db (createHoliday t d cat col src vis recur db) :=
  ⟨⟨[⟨db.nextId, t, d, cat, col, src, vis, recur⟩], rfl⟩, ⟨[], by simp [createHoliday]⟩⟩

/-! ## Upsert step facts -/

theorem upsert_of_covered (cfg : HolidayApiConfig) (t d : String) (db : Db)
    (h : CoveredTriple db t d cfg.id) : upsertProviderHoliday cfg t d db = (false, db) := by
  unfold upsertProviderHoliday
  rcases hf : findFirstTriple db t d cfg.id with _ | r
  · exact absurd h ((findFirstTriple_eq_none_iff db t d cfg.id).mp hf)
  · rfl

theorem upsert_of_not_covered (cfg : HolidayApiConfig) (t d : String) (db : Db)
    (h : ¬ CoveredTriple db t d cfg.id) :
    upsertProviderHoliday cfg t d db
      = (true, createHoliday t d (catName cfg.category) (colorOf cfg) cfg.id true false db) := by
  unfold upsertProviderHoliday
  rw [(findFirstTriple_eq_none_iff db t d cfg.id).mpr h]

theorem upsert_extends (cfg : HolidayApiConfig) (t d : String) (db : Db) :
    DbExtends db (upsertProviderHoliday cfg t d db).2 := by
  by_cases h : CoveredTriple db t d cfg.id
  · rw [upsert_of_covered cfg t d db h]
    exact DbExtends.refl db
  · rw [upsert_of_not_covered cfg t d db h]
    exact createHoliday_extends _ _ _ _ _ _ _ db

theorem upsert_covered_after (cfg : HolidayApiConfig) (t d : String) (db : Db) :
    CoveredTriple (upsertProviderHoliday cfg t d db).2 t d cfg.id := by
  by_cases h : CoveredTriple db t d cfg.id
  · rw [upsert_of_covered cfg t d db h]
    exact h
  · rw [upsert_of_not_covered cfg t d db h]
    exact ⟨⟨db.nextId, t, d, catName cfg.category, colorOf cfg, cfg.id, true, false⟩,
      by simp [createHoliday], rfl, rfl, rfl⟩

theorem upsert_logs (cfg : HolidayApiConfig) (t d : String) (db : Db) :
    (upsertProviderHoliday cfg t d db).2.logs = db.logs := by
  by_cases h : CoveredTriple db t d cfg.id
  · rw [upsert_of_covered cfg t d db h]
  · rw [upsert_of_not_covered cfg t d db h]
    rfl

/-! ## Upsert loop lemmas -/

theorem runUpserts_nil (cfg : HolidayApiConfig) (db : Db) : runUpserts cfg [] db = (0, db) := rfl

theorem upsertStep_eq (cfg : HolidayApiConfig) (n : Nat) (db : Db) (td : String × String) :
    upsertStep cfg (n, db) td
    = (n + (if (upsertProviderHoliday cfg td.1 td.2 db).1 then 1 else 0),
       (upsertProviderHoliday cfg td.1 td.2 db).2) := rfl

theorem runUpserts_shift (cfg : HolidayApiConfig) (cands : List (String × String)) (n : Nat) (db : Db) :
    cands.foldl (upsertStep cfg) (n, db)
    = (n + (runUpserts cfg cands db).1, (runUpserts cfg cands db).2) := by
  induction cands generalizing n db with
  | nil => simp [runUpserts]
  | cons td rest ih =>
    have hu : runUpserts cfg (td :: rest) db
        = ((if (upsertProviderHoliday cfg td.1 td.2 db).1 then 1 else 0)
            + (runUpserts cfg rest (upsertProviderHoliday cfg td.1 td.2 db).2).1,
           (runUpserts cfg rest (upsertProviderHoliday cfg td.1 td.2 db).2).2) := by
      rw [runUpserts]
      simp only [List.foldl_cons, upsertStep_eq]
      rw [ih]
      simp
    rw [hu]
    simp only [List.foldl_cons, upsertStep_eq]
    rw [ih]
    simp only [Prod.mk.injEq]
    exact ⟨by omega, trivial⟩

theorem runUpserts_cons (cfg : HolidayApiConfig) (td : String × String)
    (rest : List (String × String)) (db : Db) :
    runUpserts cfg (td :: rest) db
    = ((if (upsertProviderHoliday cfg td.1 td.2 db).1 then 1 else 0)
        + (runUpserts cfg rest (upsertProviderHoliday cfg td.1 td.2 db).2).1,
       (runUpserts cfg rest (upsertProviderHoliday cfg td.1 td.2 db).2).2) := by
  rw [runUpserts]
  simp only [List.foldl_cons, upsertStep_eq]
  rw [runUpserts_shift]
  simp

theorem runUpserts_spec (cfg : HolidayApiConfig) (cands : List (String × String)) (db : Db) :
    ∃ ds, (runUpserts cfg cands db).2.holidays = db.holidays ++ ds
      ∧ (runUpserts cfg cands db).2.logs = db.logs
      ∧ ∀ r ∈ ds, ∃ p ∈ cands, r.title = p.1 ∧ r.date = p.2 ∧ r.source = cfg.id
          ∧ r.category = catName cfg.category ∧ r.color = colorOf cfg
          ∧ r.visible = true ∧ r.recurring = false := by
  induction cands generalizing db with
  | nil => exact ⟨[], by simp [runUpserts_nil], by simp [runUpserts_nil], by simp⟩
  | cons td rest ih =>
    rw [runUpserts_cons]
    by_cases h : CoveredTriple db td.1 td.2 cfg.id
    · rw [upsert_of_covered _ _ _ _ h]
      obtain ⟨ds, h1, h2, h3⟩ := ih db
      exact ⟨ds, h1, h2, fun r hr => by
        obtain ⟨p, hp, hrest⟩ := h3 r hr
        exact ⟨p, List.mem_cons_of_mem td hp, hrest⟩⟩
    · rw [upsert_of_not_covered _ _ _ _ h]
      obtain ⟨ds, h1, h2, h3⟩ := ih (createHoliday td.1 td.2 (catName cfg.category) (colorOf cfg) cfg.id true false db)
      refine ⟨⟨db.nextId, td.1, td.2, catName cfg.category, colorOf cfg, cfg.id, true, false⟩ :: ds, ?_, ?_, ?_⟩
      · rw [h1]
        simp [createHoliday]
      · rw [h2]
        rfl
      · intro r hr
        rcases List.mem_cons.mp hr with he | hm
        · exact ⟨td, List.mem_cons_self td rest, by subst he; simp⟩
        · obtain ⟨p, hp, hrest⟩ := h3 r hm
          exact ⟨p, List.mem_cons_of_mem td hp, hrest⟩

theorem runUpserts_extends (cfg : HolidayApiConfig) (cands : List (String × String)) (db : Db) :
    DbExtends db (runUpserts cfg cands db).2 := by
  obtain ⟨ds, h1, h2, _⟩ := runUpserts_spec cfg cands db
  exact ⟨⟨ds, h1⟩, ⟨[], by simp [h2]⟩⟩

theorem runUpserts_saturates (cfg : HolidayApiConfig) (cands : List (String × String)) (db : Db) :
    ∀ p ∈ cands, CoveredTriple (runUpserts cfg cands db).2 p.1 p.2 cfg.id := by
  induction cands generalizing db with
  | nil => simp
  | cons td rest ih =>
    intro p hp
    rw [runUpserts_cons]
    rcases List.mem_cons.mp hp with he | hm
    · subst he
      exact (upsert_covered_after cfg p.1 p.2 db).mono_triple
        (runUpserts_extends cfg rest (upsertProviderHoliday cfg p.1 p.2 db).2)
    · exact ih _ p hm

theorem runUpserts_stable (cfg : HolidayApiConfig) (cands : List (String × String)) (db : Db)
    (h : ∀ p ∈ cands, CoveredTriple db p.1 p.2 cfg.id) :
    runUpserts cfg cands db = (0, db) := by
  induction cands with
  | nil => rfl
  | cons td rest ih =>
    rw [runUpserts_cons, upsert_of_covered _ _ _ _ (h td (List.mem_cons_self td rest))]
    rw [ih (fun p hp => h p (List.mem_cons_of_mem td hp))]
    simp

/-! ## Custom entry loop lemmas -/

theorem customLoop_cons_skip (cfg : HolidayApiConfig) (tf df : String) (h0 : Json)
    (rest : List Json) (n : Nat) (db : Db) (he : customEntry tf df h0 = .skip) :
    customLoop cfg tf df (h0 :: rest) n db = customLoop cfg tf df rest n db := by
  rw [customLoop, he]

theorem customLoop_cons_use (cfg : HolidayApiConfig) (tf df : String) (h0 : Json)
    (rest : List Json) (n : Nat) (db : Db) (t d : String)
    (he : customEntry tf df h0 = .use t d) :
    customLoop cfg tf df (h0 :: rest) n db
      = customLoop cfg tf df rest
          (n + (if (upsertProviderHoliday cfg t d db).1 then 1 else 0))
          (upsertProviderHoliday cfg t d db).2 := by
  rw [customLoop, he]

theorem customLoop_cons_invalid (cfg : HolidayApiConfig) (tf df : String) (h0 : Json)
    (rest : List Json) (n : Nat) (db : Db) (he : customEntry tf df h0 = .invalid) :
    customLoop cfg tf df (h0 :: rest) n db = .error ("Invalid holiday field value", db) := by
  rw [customLoop, he]

theorem customCands_cons_skip (tf df : String) (h0 : Json) (rest : List Json)
    (he : customEntry tf df h0 = .skip) :
    customCands tf df (h0 :: rest) = customCands tf df rest := by
  rw [customCands, he]

theorem customCands_cons_use (tf df : String) (h0 : Json) (rest : List Json) (t d : String)
    (he : customEntry tf df h0 = .use t d) :
    customCands tf df (h0 :: rest) = (t, d) :: customCands tf df rest := by
  rw [customCands, he]

theorem customCands_cons_invalid (tf df : String) (h0 : Json) (rest : List Json)
    (he : customEntry tf df h0 = .invalid) :
    customCands tf df (h0 :: rest) = [] := by
  rw [customCands, he]

theorem customLoop_ok_spec (cfg : HolidayApiConfig) (tf df : String) :
    ∀ (hs : List Json) (n : Nat) (db : Db) (cnt : Nat) (db' : Db),
    customLoop cfg tf df hs n db = .ok (cnt, db') →
    ∃ ds, db'.holidays = db.holidays ++ ds ∧ db'.logs = db.logs
      ∧ ∀ r ∈ ds, ∃ p ∈ customCands tf df hs, r.title = p.1 ∧ r.date = p.2 ∧ r.source = cfg.id := by
  intro hs
  induction hs with
  | nil =>
    intro n db cnt db' h
    simp only [customLoop, Except.ok.injEq, Prod.mk.injEq] at h
    exact ⟨[], by simp [← h.2], by simp [← h.2], by simp⟩
  | cons h0 rest ih =>
    intro n db cnt db' h
    rcases he : customEntry tf df h0 with _ | ⟨t, d⟩ | _
    · rw [customLoop_cons_skip cfg tf df h0 rest n db he] at h
      obtain ⟨ds, h1, h2, h3⟩ := ih n db cnt db' h
      exact ⟨ds, h1, h2, fun r hr => by
        obtain ⟨p, hp, hr2⟩ := h3 r hr
        exact ⟨p, by rw [customCands_cons_skip tf df h0 rest he]; exact hp, hr2⟩⟩
    · rw [customLoop_cons_use cfg tf df h0 rest n db t d he] at h
      by_cases hc : CoveredTriple db t d cfg.id
      · rw [upsert_of_covered _ _ _ _ hc] at h
        obtain ⟨ds, h1, h2, h3⟩ := ih _ db cnt db' h
        exact ⟨ds, h1, h2, fun r hr => by
          obtain ⟨p, hp, hr2⟩ := h3 r hr
          exact ⟨p, by
            rw [customCands_cons_use tf df h0 rest t d he]
            exact List.mem_cons_of_mem _ hp, hr2⟩⟩
      · rw [upsert_of_not_covered _ _ _ _ hc] at h
        obtain ⟨ds, h1, h2, h3⟩ :=
          ih _ (createHoliday t d (catName cfg.category) (colorOf cfg) cfg.id true false db) cnt db' h
        refine ⟨⟨db.nextId, t, d, catName cfg.category, colorOf cfg, cfg.id, true, false⟩ :: ds, ?_, ?_, ?_⟩
        · rw [h1]; simp [createHoliday]
        · rw [h2]; rfl
        · intro r hr
          rcases List.mem_cons.mp hr with hre | hrm
          · exact ⟨(t, d), by
              rw [customCands_cons_use tf df h0 rest t d he]
              exact List.mem_cons_self _ _, by subst hre; simp⟩
          · obtain ⟨p, hp, hr2⟩ := h3 r hrm
            exact ⟨p, by
              rw [customCands_cons_use tf df h0 rest t d he]
              exact List.mem_cons_of_mem _ hp, hr2⟩
    · rw [customLoop_cons_invalid cfg tf df h0 rest n db he] at h
      exact absurd h (by simp)

theorem customLoop_err_spec (cfg : HolidayApiConfig) (tf df : String) :
    ∀ (hs : List Json) (n : Nat) (db : Db) (m : String) (db' : Db),
    customLoop cfg tf df hs n db = .error (m, db') →
    m = "Invalid holiday field value"
    ∧ ∃ ds, db'.holidays = db.holidays ++ ds ∧ db'.logs = db.logs
      ∧ ∀ r ∈ ds, ∃ p ∈ customCands tf df hs, r.title = p.1 ∧ r.date = p.2 ∧ r.source = cfg.id := by
  intro hs
  induction hs with
  | nil =>
    intro n db m db' h
    simp [customLoop] at h
  | cons h0 rest ih =>
    intro n db m db' h
    rcases he : customEntry tf df h0 with _ | ⟨t, d⟩ | _
    · rw [customLoop_cons_skip cfg tf df h0 rest n db he] at h
      obtain ⟨hm, ds, h1, h2, h3⟩ := ih n db m db' h
      exact ⟨hm, ds, h1, h2, fun r hr => by
        obtain ⟨p, hp, hr2⟩ := h3 r hr
        exact ⟨p, by rw [customCands_cons_skip tf df h0 rest he]; exact hp, hr2⟩⟩
    · rw [customLoop_cons_use cfg tf df h0 rest n db t d he] at h
      by_cases hc : CoveredTriple db t d cfg.id
      · rw [upsert_of_covered _ _ _ _ hc] at h
        obtain ⟨hm, ds, h1, h2, h3⟩ := ih _ db m db' h
        exact ⟨hm, ds, h1, h2, fun r hr => by
          obtain ⟨p, hp, hr2⟩ := h3 r hr
          exact ⟨p, by
            rw [customCands_cons_use tf df h0 rest t d he]
            exact List.mem_cons_of_mem _ hp, hr2⟩⟩
      · rw [upsert_of_not_covered _ _ _ _ hc] at h
        obtain ⟨hm, ds, h1, h2, h3⟩ :=
          ih _ (createHoliday t d (catName cfg.category) (colorOf cfg) cfg.id true false db) m db' h
        refine ⟨hm, ⟨db.nextId, t, d, catName cfg.category, colorOf cfg, cfg.id, true, false⟩ :: ds, ?_, ?_, ?_⟩
        · rw [h1]; simp [createHoliday]
        · rw [h2]; rfl
        · intro r hr
          rcases List.mem_cons.mp hr with hre | hrm
          · exact ⟨(t, d), by
              rw [customCands_cons_use tf df h0 rest t d he]
              exact List.mem_cons_self _ _, by subst hre; simp⟩
          · obtain ⟨p, hp, hr2⟩ := h3 r hrm
            exact ⟨p, by
              rw [customCands_cons_use tf df h0 rest t d he]
              exact List.mem_cons_of_mem _ hp, hr2⟩
    · rw [customLoop_cons_invalid cfg tf df h0 rest n db he] at h
      simp only [Except.error.injEq, Prod.mk.injEq] at h
      exact ⟨h.1.symm, [], by simp [← h.2], by simp [← h.2], by simp⟩

theorem customLoop_extends (cfg : HolidayApiConfig) (tf df : String) (hs : List Json)
    (n : Nat) (db : Db) :
    (∀ cnt db', customLoop cfg tf df hs n db = .ok (cnt, db') → DbExtends db db')
    ∧ (∀ m db', customLoop cfg tf df hs n db = .error (m, db') → DbExtends db db') := by
  constructor
  · intro cnt db' h
    obtain ⟨ds, h1, h2, _⟩ := customLoop_ok_spec cfg tf df hs n db cnt db' h
    exact ⟨⟨ds, h1⟩, ⟨[], by simp [h2]⟩⟩
  · intro m db' h
    obtain ⟨_, ds, h1, h2, _⟩ := customLoop_err_spec cfg tf df hs n db m db' h
    exact ⟨⟨ds, h1⟩, ⟨[], by simp [h2]⟩⟩

theorem customLoop_saturates (cfg : HolidayApiConfig) (tf df : String) :
    ∀ (hs : List Json) (n : Nat) (db : Db),
    (∀ cnt db', customLoop cfg tf df hs n db = .ok (cnt, db') →
      ∀ p ∈ customCands tf df hs, CoveredTriple db' p.1 p.2 cfg.id)
    ∧ (∀ m db', customLoop cfg tf df hs n db = .error (m, db') →
      ∀ p ∈ customCands tf df hs, CoveredTriple db' p.1 p.2 cfg.id) := by
  intro hs
  induction hs with
  | nil => exact fun n db => ⟨fun cnt db' h p hp => by simp [customCands] at hp,
      fun m db' h p hp => by simp [customCands] at hp⟩
  | cons h0 rest ih =>
    intro n db
    constructor
    · intro cnt db' h p hp
      rcases he : customEntry tf df h0 with _ | ⟨t, d⟩ | _
      · rw [customLoop_cons_skip cfg tf df h0 rest n db he] at h
        rw [customCands_cons_skip tf df h0 rest he] at hp
        exact (ih n db).1 cnt db' h p hp
      · rw [customLoop_cons_use cfg tf df h0 rest n db t d he] at h
        rw [customCands_cons_use tf df h0 rest t d he] at hp
        rcases List.mem_cons.mp hp with hpe | hpm
        · subst hpe
          have hcov := upsert_covered_after cfg t d db
          have hext := (customLoop_extends cfg tf df rest _ _).1 cnt db' h
          exact hcov.mono_triple hext
        · exact (ih _ _).1 cnt db' h p hpm
      · rw [customLoop_cons_invalid cfg tf df h0 rest n db he] at h
        exact absurd h (by simp)
    · intro m db' h p hp
      rcases he : customEntry tf df h0 with _ | ⟨t, d⟩ | _
      · rw [customLoop_cons_skip cfg tf df h0 rest n db he] at h
        rw [customCands_cons_skip tf df h0 rest he] at hp
        exact (ih n db).2 m db' h p hp
      · rw [customLoop_cons_use cfg tf df h0 rest n db t d he] at h
        rw [customCands_cons_use tf df h0 rest t d he] at hp
        rcases List.mem_cons.mp hp with hpe | hpm
        · subst hpe
          have hcov := upsert_covered_after cfg t d db
          have hext := (customLoop_extends cfg tf df rest _ _).2 m db' h
          exact hcov.mono_triple hext
        · exact (ih _ _).2 m db' h p hpm
      · rw [customCands_cons_invalid tf df h0 rest he] at hp
        exact absurd hp (List.not_mem_nil p)

theorem customLoop_stable (cfg : HolidayApiConfig) (tf df : String) :
    ∀ (hs : List Json) (n : Nat) (db : Db),
    (∀ p ∈ customCands tf df hs, CoveredTriple db p.1 p.2 cfg.id) →
    customLoop cfg tf df hs n db = .ok (n, db)
      ∨ customLoop cfg tf df hs n db = .error ("Invalid holiday field value", db) := by
  intro hs
  induction hs with
  | nil => exact fun n db _ => Or.inl rfl
  | cons h0 rest ih =>
    intro n db hcov
    rcases he : customEntry tf df h0 with _ | ⟨t, d⟩ | _
    · rw [customLoop_cons_skip cfg tf df h0 rest n db he]
      exact ih n db (by
        intro p hp
        exact hcov p (by rw [customCands_cons_skip tf df h0 rest he]; exact hp))
    · have hc : CoveredTriple db t d cfg.id :=
        hcov (t, d) (by
          rw [customCands_cons_use tf df h0 rest t d he]
          exact List.mem_cons_self _ _)
      rw [customLoop_cons_use cfg tf df h0 rest n db t d he, upsert_of_covered _ _ _ _ hc]
      have hrec := ih (n + (if false then 1 else 0)) db (by
        intro p hp
        exact hcov p (by
          rw [customCands_cons_use tf df h0 rest t d he]
          exact List.mem_cons_of_mem _ hp))
      simpa using hrec
    · rw [customLoop_cons_invalid cfg tf df h0 rest n db he]
      exact Or.inr rfl

/-! ## Abstract free-plan fallback loop lemmas -/

theorem fallbackStep_err (cfg : HolidayApiConfig) (perDay : Nat → Nat → Except String (List AbstractHoliday))
    (leap : Bool) (acc : Nat × Db) (n : Nat) (msg : String)
    (he : perDay (dayOfYearToMonthDay leap n).1 (dayOfYearToMonthDay leap n).2 = .error msg) :
    fallbackStep cfg perDay leap acc n = acc := by
  unfold fallbackStep
  rw [he]

theorem fallbackStep_ok (cfg : HolidayApiConfig) (perDay : Nat → Nat → Except String (List AbstractHoliday))
    (leap : Bool) (acc : Nat × Db) (n : Nat) (hs : List AbstractHoliday)
    (he : perDay (dayOfYearToMonthDay leap n).1 (dayOfYearToMonthDay leap n).2 = .ok hs) :
    fallbackStep cfg perDay leap acc n
      = if hs.length > 0 then
          (acc.1 + (processHolidays cfg hs acc.2).1, (processHolidays cfg hs acc.2).2)
        else acc := by
  unfold fallbackStep
  rw [he]

theorem absDayCands_cons_err (perDay : Nat → Nat → Except String (List AbstractHoliday))
    (leap : Bool) (n : Nat) (days : List Nat) (msg : String)
    (he : perDay (dayOfYearToMonthDay leap n).1 (dayOfYearToMonthDay leap n).2 = .error msg) :
    absDayCands perDay leap (n :: days) = absDayCands perDay leap days := by
  rw [absDayCands, he]
  simp

theorem absDayCands_cons_ok (perDay : Nat → Nat → Except String (List AbstractHoliday))
    (leap : Bool) (n : Nat) (days : List Nat) (hs : List AbstractHoliday)
    (he : perDay (dayOfYearToMonthDay leap n).1 (dayOfYearToMonthDay leap n).2 = .ok hs) :
    absDayCands perDay leap (n :: days)
      = hs.filterMap normalizeAbstract ++ absDayCands perDay leap days := by
  rw [absDayCands, he]

theorem fallbackFold_spec (cfg : HolidayApiConfig) (perDay : Nat → Nat → Except String (List AbstractHoliday))
    (leap : Bool) :
    ∀ (days : List Nat) (n : Nat) (db : Db),
    ∃ ds, (days.foldl (fallbackStep cfg perDay leap) (n, db)).2.holidays = db.holidays ++ ds
      ∧ (days.foldl (fallbackStep cfg perDay leap) (n, db)).2.logs = db.logs
      ∧ ∀ r ∈ ds, ∃ p ∈ absDayCands perDay leap days, r.title = p.1 ∧ r.date = p.2 ∧ r.source = cfg.id := by
  intro days
  induction days with
  | nil => exact fun n db => ⟨[], by simp, by simp, by simp⟩
  | cons d days ih =>
    intro n db
    simp only [List.foldl_cons]
    rcases he : perDay (dayOfYearToMonthDay leap d).1 (dayOfYearToMonthDay leap d).2 with msg | hs
    · rw [fallbackStep_err cfg perDay leap (n, db) d msg he]
      obtain ⟨ds, h1, h2, h3⟩ := ih n db
      exact ⟨ds, h1, h2, fun r hr => by
        obtain ⟨p, hp, hr2⟩ := h3 r hr
        exact ⟨p, by rw [absDayCands_cons_err perDay leap d days msg he]; exact hp, hr2⟩⟩
    · rw [fallbackStep_ok cfg perDay leap (n, db) d hs he]
      by_cases hlen : hs.length > 0
      · rw [if_pos hlen]
        obtain ⟨ds1, g1, g2, g3⟩ := runUpserts_spec cfg (hs.filterMap normalizeAbstract) db
        obtain ⟨ds2, h1, h2, h3⟩ := ih (n + (processHolidays cfg hs db).1) (processHolidays cfg hs db).2
        refine ⟨ds1 ++ ds2, ?_, ?_, ?_⟩
        · rw [h1]
          show (processHolidays cfg hs db).2.holidays ++ ds2 = _
          rw [show (processHolidays cfg hs db).2 = (runUpserts cfg (hs.filterMap normalizeAbstract) db).2 from rfl, g1]
          simp [List.append_assoc]
        · rw [h2]
          show (processHolidays cfg hs db).2.logs = _
          rw [show (processHolidays cfg hs db).2 = (runUpserts cfg (hs.filterMap normalizeAbstract) db).2 from rfl, g2]
        · intro r hr
          rcases List.mem_append.mp hr with hr1 | hr2
          · obtain ⟨p, hp, c1, c2, c3, _⟩ := g3 r hr1
            exact ⟨p, by
              rw [absDayCands_cons_ok perDay leap d days hs he]
              exact List.mem_append_left _ hp, c1, c2, c3⟩
          · obtain ⟨p, hp, hrr⟩ := h3 r hr2
            exact ⟨p, by
              rw [absDayCands_cons_ok perDay leap d days hs he]
              exact List.mem_append_right _ hp, hrr⟩
      · rw [if_neg hlen]
        obtain ⟨ds, h1, h2, h3⟩ := ih n db
        refine ⟨ds, h1, h2, fun r hr => ?_⟩
        obtain ⟨p, hp, hr2⟩ := h3 r hr
        exact ⟨p, by
          rw [absDayCands_cons_ok perDay leap d days hs he]
          exact List.mem_append_right _ hp, hr2⟩

theorem fallbackFold_extends (cfg : HolidayApiConfig) (perDay : Nat → Nat → Except String (List AbstractHoliday))
    (leap : Bool) (days : List Nat) (n : Nat) (db : Db) :
    DbExtends db (days.foldl (fallbackStep cfg perDay leap) (n, db)).2 := by
  obtain ⟨ds, h1, h2, _⟩ := fallbackFold_spec cfg perDay leap days n db
  exact ⟨⟨ds, h1⟩, ⟨[], by simp [h2]⟩⟩

theorem fallbackFold_saturates (cfg : HolidayApiConfig) (perDay : Nat → Nat → Except String (List AbstractHoliday))
    (leap : Bool) :
    ∀ (days : List Nat) (n : Nat) (db : Db),
    ∀ p ∈ absDayCands perDay leap days,
      CoveredTriple (days.foldl (fallbackStep cfg perDay leap) (n, db)).2 p.1 p.2 cfg.id := by
  intro days
  induction days with
  | nil => intro n db p hp; simp [absDayCands] at hp
  | cons d days ih =>
    intro n db p hp
    simp only [List.foldl_cons]
    rcases he : perDay (dayOfYearToMonthDay leap d).1 (dayOfYearToMonthDay leap d).2 with msg | hs
    · rw [absDayCands_cons_err perDay leap d days msg he] at hp
      rw [fallbackStep_err cfg perDay leap (n, db) d msg he]
      exact ih n db p hp
    · rw [absDayCands_cons_ok perDay leap d days hs he] at hp
      rw [fallbackStep_ok cfg perDay leap (n, db) d hs he]
      by_cases hlen : hs.length > 0
      · rw [if_pos hlen]
        rcases List.mem_append.mp hp with hp1 | hp2
        · have hcov := runUpserts_saturates cfg (hs.filterMap normalizeAbstract) db p hp1
          have hext := fallbackFold_extends cfg perDay leap days
            (n + (processHolidays cfg hs db).1) (processHolidays cfg hs db).2
          exact hcov.mono_triple hext
        · exact ih _ _ p hp2
      · rcases List.mem_append.mp hp with hp1 | hp2
        · have hz : hs = [] := List.length_eq_zero.mp (by omega)
          subst hz
          simp at hp1
        · rw [if_neg hlen]
          exact ih n db p hp2

theorem fallbackFold_stable (cfg : HolidayApiConfig) (perDay : Nat → Nat → Except String (List AbstractHoliday))
    (leap : Bool) :
    ∀ (days : List Nat) (n : Nat) (db : Db),
    (∀ p ∈ absDayCands perDay leap days, CoveredTriple db p.1 p.2 cfg.id) →
    days.foldl (fallbackStep cfg perDay leap) (n, db) = (n, db) := by
  intro days
  induction days with
  | nil => exact fun n db _ => rfl
  | cons d days ih =>
    intro n db hcov
    simp only [List.foldl_cons]
    rcases he : perDay (dayOfYearToMonthDay leap d).1 (dayOfYearToMonthDay leap d).2 with msg | hs
    · rw [fallbackStep_err cfg perDay leap (n, db) d msg he]
      exact ih n db (fun p hp => hcov p (by
        rw [absDayCands_cons_err perDay leap d days msg he]; exact hp))
    · rw [fallbackStep_ok cfg perDay leap (n, db) d hs he]
      by_cases hlen : hs.length > 0
      · rw [if_pos hlen]
        have hst := runUpserts_stable cfg (hs.filterMap normalizeAbstract) db (fun p hp =>
          hcov p (by
            rw [absDayCands_cons_ok perDay leap d days hs he]
            exact List.mem_append_left _ hp))
        have hpr : processHolidays cfg hs db = (0, db) := hst
        rw [hpr]
        simp only [Nat.add_zero]
        exact ih n db (fun p hp => hcov p (by
          rw [absDayCands_cons_ok perDay leap d days hs he]
          exact List.mem_append_right _ hp))
      · rw [if_neg hlen]
        exact ih n db (fun p hp => hcov p (by
          rw [absDayCands_cons_ok perDay leap d days hs he]
          exact List.mem_append_right _ hp))

/-! ## Adapter-level lemmas -/

theorem CoveredTriple_addLog (s : String) (st : SyncStatus) (m : String) (db : Db)
    (t d src : String) : CoveredTriple (addLog s st m db) t d src ↔ CoveredTriple db t d src := by
  unfold CoveredTriple addLog
  simp

theorem syncFromApi_type_nager (env : Env) (cfg : HolidayApiConfig) (year : Nat) (db : Db)
    (h : cfg.type = .nager) :
    syncFromApi env cfg year db = syncNagerApi (env.nager cfg year) cfg year db := by
  unfold syncFromApi
  rw [h]

theorem syncFromApi_type_cal (env : Env) (cfg : HolidayApiConfig) (year : Nat) (db : Db)
    (h : cfg.type = .calendarific) :
    syncFromApi env cfg year db = syncCalendarificApi (env.calendarific cfg year) cfg year db := by
  unfold syncFromApi
  rw [h]

theorem syncFromApi_type_abs (env : Env) (cfg : HolidayApiConfig) (year : Nat) (db : Db)
    (h : cfg.type = .abstract) :
    syncFromApi env cfg year db
      = syncAbstractApi (env.abstractBulk cfg year) (env.abstractDay cfg year)
          (env.abstractFault cfg year) cfg year db := by
  unfold syncFromApi
  rw [h]

theorem syncFromApi_type_custom (env : Env) (cfg : HolidayApiConfig) (year : Nat) (db : Db)
    (h : cfg.type = .custom) :
    syncFromApi env cfg year db = syncCustomApi (env.custom cfg year) cfg year db := by
  unfold syncFromApi
  rw [h]

theorem candsFor_eq_nager (env : Env) (cfg : HolidayApiConfig) (year : Nat)
    (h : cfg.type = .nager) :
    candsFor env cfg year
      = (match env.nager cfg year with
         | .error _ => []
         | .ok hs => hs.map (fun h => (h.name, h.date))) := by
  unfold candsFor
  rw [h]

theorem candsFor_eq_cal (env : Env) (cfg : HolidayApiConfig) (year : Nat)
    (h : cfg.type = .calendarific) :
    candsFor env cfg year
      = (if hasApiKey cfg = false then []
         else match env.calendarific cfg year with
         | .error _ => []
         | .ok hs => hs.filterMap (normalizeCal cfg.category)) := by
  unfold candsFor
  rw [h]

theorem candsFor_eq_abs (env : Env) (cfg : HolidayApiConfig) (year : Nat)
    (h : cfg.type = .abstract) :
    candsFor env cfg year
      = (if hasApiKey cfg = false then []
         else match env.abstractBulk cfg year with
         | .arr hs => hs.filterMap normalizeAbstract
         | .nonArray => []
         | .fail code _ =>
           if code = some "payment_required" then
             if env.abstractFault cfg year then []
             else absDayCands (env.abstractDay cfg year) (isLeapYear year) (dayNums year)
           else []) := by
  unfold candsFor
  rw [h]

theorem candsFor_eq_custom (env : Env) (cfg : HolidayApiConfig) (year : Nat)
    (h : cfg.type = .custom) :
    candsFor env cfg year
      = (match env.custom cfg year with
         | .error _ => []
         | .ok data =>
           match navigate cfg.responsePathToHolidays data with
           | some (.arr hs) => customCands (strOr cfg.titleField "name") (strOr cfg.dateField "date") hs
           | _ => []) := by
  unfold candsFor
  rw [h]

theorem syncCustomApi_notArr (data : Json) (cfg : HolidayApiConfig) (year : Nat) (db : Db)
    (h : jsIsArray (navigate cfg.responsePathToHolidays data) = false) :
    syncCustomApi (.ok data) cfg year db = (0, db) := by
  rcases hn : navigate cfg.responsePathToHolidays data with _ | j
  · simp [syncCustomApi, hn]
  · cases j with
    | arr hs => rw [hn] at h; simp [jsIsArray] at h
    | null => simp [syncCustomApi, hn]
    | bool b => simp [syncCustomApi, hn]
    | num n => simp [syncCustomApi, hn]
    | str s => simp [syncCustomApi, hn]
    | obj fields => simp [syncCustomApi, hn]

theorem syncCustomApi_arr (data : Json) (cfg : HolidayApiConfig) (year : Nat) (db : Db)
    (hs : List Json) (h : navigate cfg.responsePathToHolidays data = some (.arr hs)) :
    syncCustomApi (.ok data) cfg year db
      = (match customLoop cfg (strOr cfg.titleField "name") (strOr cfg.dateField "date") hs 0 db with
         | .ok r => (r.1, addLog cfg.id .success s!"Synced {r.1} holidays for {year}" r.2)
         | .error (m, db') => (0, addLog cfg.id .error m db')) := by
  simp only [syncCustomApi, h]

/-! ## The three adapter facts, case by case -/

theorem adapterFacts_trivial (env : Env) (cfg : HolidayApiConfig) (year : Nat) (db : Db)
    (ls : List SyncLogEntry)
    (hrun : syncFromApi env cfg year db = (0, { db with logs := db.logs ++ ls }))
    (hl : ls.length ≤ 1)
    (hcands : candsFor env cfg year = []) :
    AdapterFacts env cfg year db := by
  refine ⟨⟨[], ls, ?_, ?_, hl, ?_⟩, ?_, fun _ => ⟨ls, hrun⟩⟩
  · rw [hrun]
    simp
  · rw [hrun]
  · simp
  · intro p hp
    rw [hcands] at hp
    exact absurd hp (List.not_mem_nil p)

theorem adapterFacts_upserts (env : Env) (cfg : HolidayApiConfig) (year : Nat) (db : Db)
    (cands0 : List (String × String)) (msgf : Nat → String)
    (hrun : syncFromApi env cfg year db
      = ((runUpserts cfg cands0 db).1,
         addLog cfg.id .success (msgf (runUpserts cfg cands0 db).1) (runUpserts cfg cands0 db).2))
    (hcands : candsFor env cfg year = cands0) :
    AdapterFacts env cfg year db := by
  refine ⟨?_, ?_, ?_⟩
  · obtain ⟨ds, h1, h2, h3⟩ := runUpserts_spec cfg cands0 db
    refine ⟨ds, [⟨cfg.id, .success, msgf (runUpserts cfg cands0 db).1⟩], ?_, ?_, by simp, ?_⟩
    · rw [hrun]
      show (addLog _ _ _ _).holidays = _
      rw [addLog_holidays, h1]
    · rw [hrun]
      show (addLog _ _ _ _).logs = _
      unfold addLog
      rw [h2]
    · intro r hr
      obtain ⟨p, hp, hrr⟩ := h3 r hr
      exact ⟨p, by rw [hcands]; exact hp, hrr.1, hrr.2.1, hrr.2.2.1⟩
  · intro p hp
    rw [hcands] at hp
    rw [hrun]
    show CoveredTriple (addLog _ _ _ _) _ _ _
    rw [CoveredTriple_addLog]
    exact runUpserts_saturates cfg cands0 db p hp
  · intro hsat
    have hcov : ∀ p ∈ cands0, CoveredTriple db p.1 p.2 cfg.id := by
      intro p hp
      exact hsat p (by rw [hcands]; exact hp)
    rw [hrun, runUpserts_stable cfg cands0 db hcov]
    exact ⟨[⟨cfg.id, .success, msgf 0⟩], rfl⟩

theorem adapterFacts_custom_arr (env : Env) (cfg : HolidayApiConfig) (year : Nat) (db : Db)
    (hs : List Json)
    (hrun : syncFromApi env cfg year db
      = (match customLoop cfg (strOr cfg.titleField "name") (strOr cfg.dateField "date") hs 0 db with
         | .ok r => (r.1, addLog cfg.id .success s!"Synced {r.1} holidays for {year}" r.2)
         | .error (m, db') => (0, addLog cfg.id .error m db')))
    (hcands : candsFor env cfg year
      = customCands (strOr cfg.titleField "name") (strOr cfg.dateField "date") hs) :
    AdapterFacts env cfg year db := by
  rcases hloop : customLoop cfg (strOr cfg.titleField "name") (strOr cfg.dateField "date") hs 0 db
    with ⟨m, db'⟩ | ⟨cnt, db'⟩
  · rw [hloop] at hrun
    obtain ⟨hm, ds, h1, h2, h3⟩ :=
      customLoop_err_spec cfg _ _ hs 0 db m db' hloop
    refine ⟨⟨ds, [⟨cfg.id, .error, m⟩], ?_, ?_, by simp, ?_⟩, ?_, ?_⟩
    · rw [hrun]
      show (addLog _ _ _ _).holidays = _
      rw [addLog_holidays, h1]
    · rw [hrun]
      show (addLog _ _ _ _).logs = _
      unfold addLog
      rw [h2]
    · intro r hr
      obtain ⟨p, hp, hrr⟩ := h3 r hr
      exact ⟨p, by rw [hcands]; exact hp, hrr⟩
    · intro p hp
      rw [hcands] at hp
      rw [hrun]
      show CoveredTriple (addLog _ _ _ _) _ _ _
      rw [CoveredTriple_addLog]
      exact (customLoop_saturates cfg _ _ hs 0 db).2 m db' hloop p hp
    · intro hsat
      have hcov : ∀ p ∈ customCands (strOr cfg.titleField "name") (strOr cfg.dateField "date") hs,
          CoveredTriple db p.1 p.2 cfg.id := by
        intro p hp
        exact hsat p (by rw [hcands]; exact hp)
      rcases customLoop_stable cfg _ _ hs 0 db hcov with hok | herr
      · rw [hok] at hloop
        exact absurd hloop (by simp)
      · rw [herr] at hloop
        simp only [Except.error.injEq, Prod.mk.injEq] at hloop
        rw [hrun, ← hloop.1, ← hloop.2]
        exact ⟨[⟨cfg.id, .error, "Invalid holiday field value"⟩], rfl⟩
  · rw [hloop] at hrun
    obtain ⟨ds, h1, h2, h3⟩ := customLoop_ok_spec cfg _ _ hs 0 db cnt db' hloop
    refine ⟨⟨ds, [⟨cfg.id, .success, s!"Synced {cnt} holidays for {year}"⟩], ?_, ?_, by simp, ?_⟩, ?_, ?_⟩
    · rw [hrun]
      show (addLog _ _ _ _).holidays = _
      rw [addLog_holidays, h1]
    · rw [hrun]
      show (addLog _ _ _ _).logs = _
      unfold addLog
      rw [h2]
    · intro r hr
      obtain ⟨p, hp, hrr⟩ := h3 r hr
      exact ⟨p, by rw [hcands]; exact hp, hrr⟩
    · intro p hp
      rw [hcands] at hp
      rw [hrun]
      show CoveredTriple (addLog _ _ _ _) _ _ _
      rw [CoveredTriple_addLog]
      exact (customLoop_saturates cfg _ _ hs 0 db).1 cnt db' hloop p hp
    · intro hsat
      have hcov : ∀ p ∈ customCands (strOr cfg.titleField "name") (strOr cfg.dateField "date") hs,
          CoveredTriple db p.1 p.2 cfg.id := by
        intro p hp
        exact hsat p (by rw [hcands]; exact hp)
      rcases customLoop_stable cfg _ _ hs 0 db hcov with hok | herr
      · rw [hok] at hloop
        simp only [Except.ok.injEq, Prod.mk.injEq] at hloop
        rw [hrun, ← hloop.1, ← hloop.2]
        exact ⟨[⟨cfg.id, .success, s!"Synced {(0 : Nat)} holidays for {year}"⟩], rfl⟩
      · rw [herr] at hloop
        exact absurd hloop (by simp)

theorem adapterFacts_fallback (env : Env) (cfg : HolidayApiConfig) (year : Nat) (db : Db)
    (hrun : syncFromApi env cfg year db
      = (((dayNums year).foldl (fallbackStep cfg (env.abstractDay cfg year) (isLeapYear year)) (0, db)).1,
         addLog cfg.id .success
           s!"Synced {((dayNums year).foldl (fallbackStep cfg (env.abstractDay cfg year) (isLeapYear year)) (0, db)).1} holidays for {year} (free plan - day by day)"
           ((dayNums year).foldl (fallbackStep cfg (env.abstractDay cfg year) (isLeapYear year)) (0, db)).2))
    (hcands : candsFor env cfg year
      = absDayCands (env.abstractDay cfg year) (isLeapYear year) (dayNums year)) :
    AdapterFacts env cfg year db := by
  refine ⟨?_, ?_, ?_⟩
  · obtain ⟨ds, h1, h2, h3⟩ :=
      fallbackFold_spec cfg (env.abstractDay cfg year) (isLeapYear year) (dayNums year) 0 db
    refine ⟨ds, [⟨cfg.id, .success,
      s!"Synced {((dayNums year).foldl (fallbackStep cfg (env.abstractDay cfg year) (isLeapYear year)) (0, db)).1} holidays for {year} (free plan - day by day)"⟩],
      ?_, ?_, by simp, ?_⟩
    · rw [hrun]
      show (addLog _ _ _ _).holidays = _
      rw [addLog_holidays, h1]
    · rw [hrun]
      show (addLog _ _ _ _).logs = _
      unfold addLog
      rw [h2]
    · intro r hr
      obtain ⟨p, hp, hrr⟩ := h3 r hr
      exact ⟨p, by rw [hcands]; exact hp, hrr⟩
  · intro p hp
    rw [hcands] at hp
    rw [hrun]
    show CoveredTriple (addLog _ _ _ _) _ _ _
    rw [CoveredTriple_addLog]
    exact fallbackFold_saturates cfg (env.abstractDay cfg year) (isLeapYear year) (dayNums year) 0 db p hp
  · intro hsat
    have hcov : ∀ p ∈ absDayCands (env.abstractDay cfg year) (isLeapYear year) (dayNums year),
        CoveredTriple db p.1 p.2 cfg.id := by
      intro p hp
      exact hsat p (by rw [hcands]; exact hp)
    rw [hrun, fallbackFold_stable cfg (env.abstractDay cfg year) (isLeapYear year) (dayNums year) 0 db hcov]
    exact ⟨_, rfl⟩

theorem syncFromApi_main (env : Env) (cfg : HolidayApiConfig) (year : Nat) (db : Db) :
    AdapterFacts env cfg year db := by
  rcases ht : cfg.type
  case nager =>
    rcases hf : env.nager cfg year with m | hs
    · exact adapterFacts_trivial env cfg year db [⟨cfg.id, .error, m⟩]
        (by rw [syncFromApi_type_nager env cfg year db ht, hf]; rfl)
        (by simp)
        (by rw [candsFor_eq_nager env cfg year ht, hf])
    · exact adapterFacts_upserts env cfg year db (hs.map (fun h => (h.name, h.date)))
        (fun c => s!"Synced {c} holidays for {year}")
        (by rw [syncFromApi_type_nager env cfg year db ht, hf]; rfl)
        (by rw [candsFor_eq_nager env cfg year ht, hf])
  case calendarific =>
    rcases hk : hasApiKey cfg with _ | _
    · exact adapterFacts_trivial env cfg year db []
        (by rw [syncFromApi_type_cal env cfg year db ht]; simp [syncCalendarificApi, hk])
        (by simp)
        (by rw [candsFor_eq_cal env cfg year ht]; simp [hk])
    · rcases hf : env.calendarific cfg year with m | hs
      · exact adapterFacts_trivial env cfg year db [⟨cfg.id, .error, m⟩]
          (by rw [syncFromApi_type_cal env cfg year db ht]; simp [syncCalendarificApi, hk, hf, addLog])
          (by simp)
          (by rw [candsFor_eq_cal env cfg year ht]; simp [hk, hf])
      · exact adapterFacts_upserts env cfg year db (hs.filterMap (normalizeCal cfg.category))
          (fun c => s!"Synced {c} holidays for {year}")
          (by rw [syncFromApi_type_cal env cfg year db ht]; simp [syncCalendarificApi, hk, hf])
          (by rw [candsFor_eq_cal env cfg year ht]; simp [hk, hf])
  case abstract =>
    rcases hk : hasApiKey cfg with _ | _
    · exact adapterFacts_trivial env cfg year db []
        (by rw [syncFromApi_type_abs env cfg year db ht]; simp [syncAbstractApi, hk])
        (by simp)
        (by rw [candsFor_eq_abs env cfg year ht]; simp [hk])
    · rcases hb : env.abstractBulk cfg year with hs | _ | ⟨code, m⟩
      · exact adapterFacts_upserts env cfg year db (hs.filterMap normalizeAbstract)
          (fun c => s!"Synced {c} holidays for {year}")
          (by rw [syncFromApi_type_abs env cfg year db ht]; simp [syncAbstractApi, hk, hb, processHolidays])
          (by rw [candsFor_eq_abs env cfg year ht]; simp [hk, hb])
      · exact adapterFacts_trivial env cfg year db [⟨cfg.id, .error, "Invalid response format from API"⟩]
          (by rw [syncFromApi_type_abs env cfg year db ht]; simp [syncAbstractApi, hk, hb, addLog])
          (by simp)
          (by rw [candsFor_eq_abs env cfg year ht]; simp [hk, hb])
      · by_cases hcode : code = some "payment_required"
        · rcases hfault : env.abstractFault cfg year with _ | _
          · exact adapterFacts_fallback env cfg year db
              (by rw [syncFromApi_type_abs env cfg year db ht]
                  simp [syncAbstractApi, hk, hb, hcode, hfault])
              (by rw [candsFor_eq_abs env cfg year ht]; simp [hk, hb, hcode, hfault])
          · exact adapterFacts_trivial env cfg year db [⟨cfg.id, .error, "Free plan sync failed"⟩]
              (by rw [syncFromApi_type_abs env cfg year db ht]
                  simp [syncAbstractApi, hk, hb, hcode, hfault, addLog])
              (by simp)
              (by rw [candsFor_eq_abs env cfg year ht]; simp [hk, hb, hcode, hfault])
        · exact adapterFacts_trivial env cfg year db [⟨cfg.id, .error, m⟩]
            (by rw [syncFromApi_type_abs env cfg year db ht]
                simp [syncAbstractApi, hk, hb, hcode, addLog])
            (by simp)
            (by rw [candsFor_eq_abs env cfg year ht]; simp [hk, hb, hcode])
  case custom =>
    rcases hf : env.custom cfg year with m | data
    · exact adapterFacts_trivial env cfg year db [⟨cfg.id, .error, m⟩]
        (by rw [syncFromApi_type_custom env cfg year db ht, hf]; rfl)
        (by simp)
        (by rw [candsFor_eq_custom env cfg year ht, hf])
    · rcases hn : navigate cfg.responsePathToHolidays data with _ | j
      · exact adapterFacts_trivial env cfg year db []
          (by rw [syncFromApi_type_custom env cfg year db ht, hf,
                syncCustomApi_notArr data cfg year db (by rw [hn]; rfl)]
              simp)
          (by simp)
          (by rw [candsFor_eq_custom env cfg year ht, hf]; simp [hn])
      · cases j with
        | arr hs =>
          exact adapterFacts_custom_arr env cfg year db hs
            (by rw [syncFromApi_type_custom env cfg year db ht, hf,
                  syncCustomApi_arr data cfg year db hs hn])
            (by rw [candsFor_eq_custom env cfg year ht, hf]; simp [hn])
        | null =>
          exact adapterFacts_trivial env cfg year db []
            (by rw [syncFromApi_type_custom env cfg year db ht, hf,
                  syncCustomApi_notArr data cfg year db (by rw [hn]; rfl)]
                simp)
            (by simp)
            (by rw [candsFor_eq_custom env cfg year ht, hf]; simp [hn])
        | bool b =>
          exact adapterFacts_trivial env cfg year db []
            (by rw [syncFromApi_type_custom env cfg year db ht, hf,
                  syncCustomApi_notArr data cfg year db (by rw [hn]; rfl)]
                simp)
            (by simp)
            (by rw [candsFor_eq_custom env cfg year ht, hf]; simp [hn])
        | num n =>
          exact adapterFacts_trivial env cfg year db []
            (by rw [syncFromApi_type_custom env cfg year db ht, hf,
                  syncCustomApi_notArr data cfg year db (by rw [hn]; rfl)]
                simp)
            (by simp)
            (by rw [candsFor_eq_custom env cfg year ht, hf]; simp [hn])
        | str s =>
          exact adapterFacts_trivial env cfg year db []
            (by rw [syncFromApi_type_custom env cfg year db ht, hf,
                  syncCustomApi_notArr data cfg year db (by rw [hn]; rfl)]
                simp)
            (by simp)
            (by rw [candsFor_eq_custom env cfg year ht, hf]; simp [hn])
        | obj fields =>
          exact adapterFacts_trivial env cfg year db []
            (by rw [syncFromApi_type_custom env cfg year db ht, hf,
                  syncCustomApi_notArr data cfg year db (by rw [hn]; rfl)]
                simp)
            (by simp)
            (by rw [candsFor_eq_custom env cfg year ht, hf]; simp [hn])

/-! ## Corollaries of the adapter facts -/

theorem syncFromApi_extends (env : Env) (cfg : HolidayApiConfig) (year : Nat) (db : Db) :
    DbExtends db (syncFromApi env cfg year db).2 := by
  obtain ⟨⟨ds, ls, h1, h2, _, _⟩, _, _⟩ := syncFromApi_main env cfg year db
  exact ⟨⟨ds, h1⟩, ⟨ls, h2⟩⟩

theorem syncFromApi_saturates (env : Env) (cfg : HolidayApiConfig) (year : Nat) (db : Db) :
    Saturated env cfg year (syncFromApi env cfg year db).2 :=
  (syncFromApi_main env cfg year db).2.1

theorem syncFromApi_stable (env : Env) (cfg : HolidayApiConfig) (year : Nat) (db : Db)
    (h : Saturated env cfg year db) :
    ∃ ls, syncFromApi env cfg year db = (0, { db with logs := db.logs ++ ls }) :=
  (syncFromApi_main env cfg year db).2.2 h

/-! ## Recurrence roller lemmas -/

theorem rollStep_covered (year : Nat) (acc : Nat × Db) (h0 : HolidayRecord)
    (h : CoveredPair acc.2 h0.title (rollTarget year h0.date)) :
    rollStep year acc h0 = acc := by
  rcases hf : findFirstPair acc.2 h0.title (rollTarget year h0.date) with _ | r
  · exact absurd h ((findFirstPair_eq_none_iff acc.2 h0.title (rollTarget year h0.date)).mp hf)
  · unfold rollStep
    rw [hf]

theorem rollStep_not_covered_gen (year : Nat) (acc : Nat × Db) (h0 : HolidayRecord)
    (h : ¬ CoveredPair acc.2 h0.title (rollTarget year h0.date)) :
    rollStep year acc h0
      = (acc.1 + 1, createHoliday h0.title (rollTarget year h0.date) h0.category h0.color h0.source
          h0.visible true acc.2) := by
  unfold rollStep
  rw [(findFirstPair_eq_none_iff acc.2 h0.title (rollTarget year h0.date)).mpr h]

theorem rollStep_not_covered (year : Nat) (n : Nat) (db : Db) (h0 : HolidayRecord)
    (h : ¬ CoveredPair db h0.title (rollTarget year h0.date)) :
    rollStep year (n, db) h0
      = (n + 1, createHoliday h0.title (rollTarget year h0.date) h0.category h0.color h0.source
          h0.visible true db) := by
  simpa using rollStep_not_covered_gen year (n, db) h0 h

theorem rollStep_covered_after (year : Nat) (n : Nat) (db : Db) (h0 : HolidayRecord) :
    CoveredPair (rollStep year (n, db) h0).2 h0.title (rollTarget year h0.date) := by
  by_cases h : CoveredPair db h0.title (rollTarget year h0.date)
  · rw [rollStep_covered year (n, db) h0 h]
    exact h
  · rw [rollStep_not_covered year n db h0 h]
    exact ⟨⟨db.nextId, h0.title, rollTarget year h0.date, h0.category, h0.color, h0.source,
      h0.visible, true⟩, by simp [createHoliday], rfl, rfl⟩

theorem rollFold_spec (year : Nat) :
    ∀ (recs : List HolidayRecord) (n : Nat) (db : Db),
    ∃ ds, (recs.foldl (rollStep year) (n, db)).2.holidays = db.holidays ++ ds
      ∧ (recs.foldl (rollStep year) (n, db)).2.logs = db.logs
      ∧ ∀ r ∈ ds, r.recurring = true ∧ ∃ h ∈ recs, r.title = h.title ∧ r.date = rollTarget year h.date := by
  intro recs
  induction recs with
  | nil => exact fun n db => ⟨[], by simp, by simp, by simp⟩
  | cons h0 rest ih =>
    intro n db
    simp only [List.foldl_cons]
    by_cases h : CoveredPair db h0.title (rollTarget year h0.date)
    · rw [rollStep_covered year (n, db) h0 h]
      obtain ⟨ds, h1, h2, h3⟩ := ih n db
      exact ⟨ds, h1, h2, fun r hr => by
        obtain ⟨hrec, hh, hhm, hhr⟩ := h3 r hr
        exact ⟨hrec, hh, List.mem_cons_of_mem h0 hhm, hhr⟩⟩
    · rw [rollStep_not_covered year n db h0 h]
      obtain ⟨ds, h1, h2, h3⟩ :=
        ih (n + 1) (createHoliday h0.title (rollTarget year h0.date) h0.category h0.color h0.source
          h0.visible true db)
      refine ⟨⟨db.nextId, h0.title, rollTarget year h0.date, h0.category, h0.color, h0.source,
        h0.visible, true⟩ :: ds, ?_, ?_, ?_⟩
      · rw [h1]
        simp [createHoliday]
      · rw [h2]
        rfl
      · intro r hr
        rcases List.mem_cons.mp hr with hre | hrm
        · subst hre
          exact ⟨rfl, h0, List.mem_cons_self h0 rest, rfl, rfl⟩
        · obtain ⟨hrec, hh, hhm, hhr⟩ := h3 r hrm
          exact ⟨hrec, hh, List.mem_cons_of_mem h0 hhm, hhr⟩

theorem rollFold_extends (year : Nat) (recs : List HolidayRecord) (n : Nat) (db : Db) :
    DbExtends db (recs.foldl (rollStep year) (n, db)).2 := by
  obtain ⟨ds, h1, h2, _⟩ := rollFold_spec year recs n db
  exact ⟨⟨ds, h1⟩, ⟨[], by simp [h2]⟩⟩

theorem rollFold_covers (year : Nat) :
    ∀ (recs : List HolidayRecord) (n : Nat) (db : Db),
    ∀ h ∈ recs, CoveredPair (recs.foldl (rollStep year) (n, db)).2 h.title (rollTarget year h.date) := by
  intro recs
  induction recs with
  | nil => intro n db h hm; exact absurd hm (List.not_mem_nil h)
  | cons h0 rest ih =>
    intro n db h hm
    simp only [List.foldl_cons]
    rcases List.mem_cons.mp hm with he | hmem
    · subst he
      have hcov := rollStep_covered_after year n db h
      rcases hrs : rollStep year (n, db) h with ⟨n1, db1⟩
      rw [hrs] at hcov
      exact hcov.mono_pair (rollFold_extends year rest n1 db1)
    · rcases hrs : rollStep year (n, db) h0 with ⟨n1, db1⟩
      exact ih n1 db1 h hmem

theorem rollFold_stable (year : Nat) :
    ∀ (recs : List HolidayRecord) (n : Nat) (db : Db),
    (∀ h ∈ recs, CoveredPair db h.title (rollTarget year h.date)) →
    recs.foldl (rollStep year) (n, db) = (n, db) := by
  intro recs
  induction recs with
  | nil => exact fun n db _ => rfl
  | cons h0 rest ih =>
    intro n db hcov
    simp only [List.foldl_cons]
    rw [rollStep_covered year (n, db) h0 (hcov h0 (List.mem_cons_self h0 rest))]
    exact ih n db (fun h hm => hcov h (List.mem_cons_of_mem h0 hm))

theorem roller_ok (year : Nat) (db : Db) :
    syncRecurringHolidays none year db
      = .ok ((db.holidays.filter (·.recurring)).foldl (rollStep year) (0, db)) := rfl

theorem roller_sat_after (year : Nat) (db : Db) (c : Nat) (db' : Db)
    (h : syncRecurringHolidays none year db = .ok (c, db')) : RollerSat year db' := by
  rw [roller_ok year db] at h
  simp only [Except.ok.injEq] at h
  obtain ⟨ds, h1, h2, h3⟩ := rollFold_spec year (db.holidays.filter (·.recurring)) 0 db
  intro r hr hrec
  have hdb' : db' = ((db.holidays.filter (·.recurring)).foldl (rollStep year) (0, db)).2 := by
    rw [h]
  rw [hdb', h1] at hr
  rcases List.mem_append.mp hr with hold | hnew
  · have hmem : r ∈ db.holidays.filter (·.recurring) := List.mem_filter.mpr ⟨hold, by simp [hrec]⟩
    have := rollFold_covers year (db.holidays.filter (·.recurring)) 0 db r hmem
    rw [← hdb'] at this
    exact this
  · obtain ⟨_, h0, _, hteq, hdeq⟩ := h3 r hnew
    refine ⟨r, ?_, rfl, ?_⟩
    · rw [hdb', h1]
      exact List.mem_append_right _ hnew
    · rw [hdeq, rollTarget_idem]

theorem roller_stable (year : Nat) (db : Db) (h : RollerSat year db) :
    syncRecurringHolidays none year db = .ok (0, db) := by
  rw [roller_ok year db]
  rw [rollFold_stable year (db.holidays.filter (·.recurring)) 0 db (fun r hr => by
    have hm := List.mem_filter.mp hr
    exact h r hm.1 (by simpa using hm.2))]

theorem roller_extends (year : Nat) (db : Db) (c : Nat) (db' : Db)
    (h : syncRecurringHolidays none year db = .ok (c, db')) : DbExtends db db' := by
  rw [roller_ok year db] at h
  simp only [Except.ok.injEq] at h
  have hext := rollFold_extends year (db.holidays.filter (·.recurring)) 0 db
  have hdb' : db' = ((db.holidays.filter (·.recurring)).foldl (rollStep year) (0, db)).2 := by
    rw [h]
  rw [hdb']
  exact hext

/-! ## Orchestrator lemmas -/

theorem Saturated.mono_sat {env : Env} {cfg : HolidayApiConfig} {year : Nat} {db db' : Db}
    (hx : DbExtends db db') (h : Saturated env cfg year db) : Saturated env cfg year db' :=
  fun p hp => (h p hp).mono_triple hx

theorem Saturated_of_holidays_eq {env : Env} {cfg : HolidayApiConfig} {year : Nat} {db db' : Db}
    (he : db'.holidays = db.holidays) (h : Saturated env cfg year db) :
    Saturated env cfg year db' := by
  intro p hp
  obtain ⟨r, hr, hprops⟩ := h p hp
  exact ⟨r, by rw [he]; exact hr, hprops⟩

theorem RollerSat_of_holidays_eq {year : Nat} {db db' : Db}
    (he : db'.holidays = db.holidays) (h : RollerSat year db) : RollerSat year db' := by
  intro r hr hrec
  obtain ⟨q, hq, hps⟩ := h r (by rw [← he]; exact hr) hrec
  exact ⟨q, by rw [he]; exact hq, hps⟩

theorem setDetail_mem (l : List (String × Nat)) (k : String) (v : Nat) :
    ∀ p ∈ setDetail l k v, p ∈ l ∨ p.2 = v := by
  intro p hp
  unfold setDetail at hp
  by_cases hany : l.any (fun q => q.1 == k)
  · rw [if_pos hany] at hp
    rcases List.mem_map.mp hp with ⟨q, hq, he⟩
    by_cases hk : q.1 == k
    · rw [if_pos hk] at he
      right
      rw [← he]
    · rw [if_neg hk] at he
      left
      rw [← he]
      exact hq
  · rw [if_neg hany] at hp
    rcases List.mem_append.mp hp with h1 | h2
    · exact Or.inl h1
    · right
      rw [List.mem_singleton.mp h2]

theorem syncLoop_cons (env : Env) (year : Nat) (cfg : HolidayApiConfig)
    (rest : List HolidayApiConfig) (acc : Nat × List (String × Nat) × Db) :
    syncLoop env year (cfg :: rest) acc
      = syncLoop env year rest
          (acc.1 + (syncFromApi env cfg year acc.2.2).1,
           setDetail acc.2.1 cfg.id (syncFromApi env cfg year acc.2.2).1,
           (syncFromApi env cfg year acc.2.2).2) := rfl

theorem syncLoop_extends (env : Env) (year : Nat) :
    ∀ (cfgs : List HolidayApiConfig) (acc : Nat × List (String × Nat) × Db),
    DbExtends acc.2.2 (syncLoop env year cfgs acc).2.2 := by
  intro cfgs
  induction cfgs with
  | nil => exact fun acc => DbExtends.refl _
  | cons cfg rest ih =>
    intro acc
    rw [syncLoop_cons]
    exact (syncFromApi_extends env cfg year acc.2.2).trans (ih _)

theorem syncLoop_saturates (env : Env) (year : Nat) :
    ∀ (cfgs : List HolidayApiConfig) (acc : Nat × List (String × Nat) × Db),
    ∀ cfg ∈ cfgs, Saturated env cfg year (syncLoop env year cfgs acc).2.2 := by
  intro cfgs
  induction cfgs with
  | nil => exact fun acc cfg hm => absurd hm (List.not_mem_nil cfg)
  | cons cfg0 rest ih =>
    intro acc cfg hm
    rw [syncLoop_cons]
    rcases List.mem_cons.mp hm with he | hmem
    · subst he
      have hsat := syncFromApi_saturates env cfg year acc.2.2
      exact hsat.mono_sat (syncLoop_extends env year rest _)
    · exact ih _ cfg hmem

theorem syncLoop_stable (env : Env) (year : Nat) :
    ∀ (cfgs : List HolidayApiConfig) (t : Nat) (dts : List (String × Nat)) (db : Db),
    (∀ cfg ∈ cfgs, Saturated env cfg year db) →
    ∃ dts' ls, syncLoop env year cfgs (t, dts, db) = (t, dts', { db with logs := db.logs ++ ls })
      ∧ ∀ p ∈ dts', p ∈ dts ∨ p.2 = 0 := by
  intro cfgs
  induction cfgs with
  | nil =>
    intro t dts db _
    exact ⟨dts, [], by simp [syncLoop], fun p hp => Or.inl hp⟩
  | cons cfg rest ih =>
    intro t dts db hsat
    obtain ⟨ls1, hstep⟩ := syncFromApi_stable env cfg year db (hsat cfg (List.mem_cons_self cfg rest))
    rw [syncLoop_cons]
    rw [hstep]
    have hsat' : ∀ c ∈ rest, Saturated env c year { db with logs := db.logs ++ ls1 } := by
      intro c hc
      exact Saturated_of_holidays_eq rfl (hsat c (List.mem_cons_of_mem cfg hc))
    obtain ⟨dts', ls2, hrec, hmem⟩ := ih (t + 0) (setDetail dts cfg.id 0) { db with logs := db.logs ++ ls1 } hsat'
    refine ⟨dts', ls1 ++ ls2, ?_, ?_⟩
    · show syncLoop env year rest (t + 0, setDetail dts cfg.id 0, { db with logs := db.logs ++ ls1 }) = _
      rw [hrec]
      simp [List.append_assoc]
    · intro p hp
      rcases hmem p hp with h1 | h2
      · rcases setDetail_mem dts cfg.id 0 p h1 with h3 | h4
        · exact Or.inl h3
        · exact Or.inr h4
      · exact Or.inr h2

theorem syncHolidays_eq (env : Env) (configs : List HolidayApiConfig) (year : Nat) (db : Db) :
    syncHolidays env configs year db
      = if (configs.filter (·.enabled)).isEmpty then .ok (⟨0, 0, []⟩, db)
        else
          match syncRecurringHolidays env.rollerFault year
              (syncLoop env year (configs.filter (·.enabled)) (0, [], db)).2.2 with
          | .error e => .error e
          | .ok (recCount, db') =>
            .ok (⟨(syncLoop env year (configs.filter (·.enabled)) (0, [], db)).1, recCount,
                  (syncLoop env year (configs.filter (·.enabled)) (0, [], db)).2.1⟩, db') := rfl

theorem syncHolidays_ok_of_no_fault (env : Env) (configs : List HolidayApiConfig) (year : Nat)
    (db : Db) (hf : env.rollerFault = none) :
    ∃ res db', syncHolidays env configs year db = .ok (res, db') := by
  rw [syncHolidays_eq]
  by_cases hemp : (configs.filter (·.enabled)).isEmpty
  · rw [if_pos hemp]
    exact ⟨_, _, rfl⟩
  · rw [if_neg hemp, hf, roller_ok]
    rcases hroll : (((syncLoop env year (configs.filter (·.enabled)) (0, [], db)).2.2).holidays.filter
        (·.recurring)).foldl (rollStep year)
        (0, (syncLoop env year (configs.filter (·.enabled)) (0, [], db)).2.2) with ⟨rc, dbr⟩
    rw [hroll]
    exact ⟨_, _, rfl⟩

theorem syncHolidays_err_of_fault (env : Env) (configs : List HolidayApiConfig) (year : Nat)
    (db : Db) (m : String) (hf : env.rollerFault = some m)
    (hne : (configs.filter (·.enabled)).isEmpty = false) :
    syncHolidays env configs year db
      = .error (m, (syncLoop env year (configs.filter (·.enabled)) (0, [], db)).2.2) := by
  rw [syncHolidays_eq, if_neg (by simp [hne]), hf]
  rfl

theorem syncHolidays_extends (env : Env) (configs : List HolidayApiConfig) (year : Nat) (db : Db) :
    DbExtends db (dbOut (syncHolidays env configs year db)) := by
  rw [syncHolidays_eq]
  by_cases hemp : (configs.filter (·.enabled)).isEmpty
  · rw [if_pos hemp]
    exact DbExtends.refl db
  · rw [if_neg hemp]
    have hloop : DbExtends db (syncLoop env year (configs.filter (·.enabled)) (0, [], db)).2.2 :=
      syncLoop_extends env year (configs.filter (·.enabled)) (0, [], db)
    rcases hfault : env.rollerFault with _ | m
    · rw [roller_ok]
      exact hloop.trans (rollFold_extends year _ 0 _)
    · exact hloop

theorem rerun_zero (env : Env) (configs : List HolidayApiConfig) (year : Nat) (db : Db)
    (res1 : SyncResult) (db1 : Db)
    (h1 : syncHolidays env configs year db = .ok (res1, db1)) :
    ∃ res2 db2, syncHolidays env configs year db1 = .ok (res2, db2)
      ∧ db2.holidays = db1.holidays
      ∧ res2.total = 0 ∧ res2.recurring = 0 ∧ ∀ p ∈ res2.details, p.2 = 0 := by
  rw [syncHolidays_eq] at h1
  by_cases hemp : (configs.filter (·.enabled)).isEmpty
  · rw [if_pos hemp] at h1
    simp only [Except.ok.injEq, Prod.mk.injEq] at h1
    refine ⟨⟨0, 0, []⟩, db1, ?_, rfl, rfl, rfl, by simp⟩
    rw [syncHolidays_eq, if_pos hemp, ← h1.2]
  · rw [if_neg hemp] at h1
    rcases hfault : env.rollerFault with _ | m
    · rw [hfault, roller_ok] at h1
      simp only [Except.ok.injEq, Prod.mk.injEq] at h1
      have hdb1 : db1
          = ((((syncLoop env year (configs.filter (·.enabled)) (0, [], db)).2.2).holidays.filter
              (·.recurring)).foldl (rollStep year)
              (0, (syncLoop env year (configs.filter (·.enabled)) (0, [], db)).2.2)).2 := by
        rw [← h1.2]
      have hsatLoop : ∀ cfg ∈ configs.filter (·.enabled),
          Saturated env cfg year (syncLoop env year (configs.filter (·.enabled)) (0, [], db)).2.2 :=
        syncLoop_saturates env year (configs.filter (·.enabled)) (0, [], db)
      have hsat1 : ∀ cfg ∈ configs.filter (·.enabled), Saturated env cfg year db1 := by
        intro cfg hc
        rw [hdb1]
        exact (hsatLoop cfg hc).mono_sat (rollFold_extends year _ 0 _)
      have hrsat : RollerSat year db1 := by
        rw [hdb1]
        exact roller_sat_after year (syncLoop env year (configs.filter (·.enabled)) (0, [], db)).2.2
          _ _ (by rw [roller_ok])
      obtain ⟨dts', ls, hloop2, hmem⟩ :=
        syncLoop_stable env year (configs.filter (·.enabled)) 0 [] db1 hsat1
      have hrsat2 : RollerSat year { db1 with logs := db1.logs ++ ls } :=
        RollerSat_of_holidays_eq rfl hrsat
      refine ⟨⟨0, 0, dts'⟩, { db1 with logs := db1.logs ++ ls }, ?_, rfl, rfl, rfl, ?_⟩
      · rw [syncHolidays_eq, if_neg hemp, hfault, hloop2]
        have hst := roller_stable year { db1 with logs := db1.logs ++ ls } hrsat2
        simp only [hst]
      · intro p hp
        rcases hmem p hp with h | h
        · exact absurd h (List.not_mem_nil p)
        · exact h
    · rw [hfault] at h1
      exact absurd h1 (by simp [syncRecurringHolidays])

/-! ## Preservation of dedup-key uniqueness -/

theorem UniqueTriples_append_one (l : List HolidayRecord) (r : HolidayRecord)
    (hu : UniqueTriples l)
    (hnc : ∀ q ∈ l, ¬(q.title = r.title ∧ q.date = r.date ∧ q.source = r.source)) :
    UniqueTriples (l ++ [r]) := by
  unfold UniqueTriples at *
  rw [List.pairwise_append]
  exact ⟨hu, List.pairwise_singleton _ r, fun a ha b hb => by
    rw [List.mem_singleton.mp hb]
    exact hnc a ha⟩

theorem upsert_unique (cfg : HolidayApiConfig) (t d : String) (db : Db)
    (hu : UniqueTriples db.holidays) :
    UniqueTriples (upsertProviderHoliday cfg t d db).2.holidays := by
  by_cases h : CoveredTriple db t d cfg.id
  · rw [upsert_of_covered cfg t d db h]
    exact hu
  · rw [upsert_of_not_covered cfg t d db h]
    show UniqueTriples (db.holidays ++ [_])
    refine UniqueTriples_append_one db.holidays _ hu ?_
    intro q hq hcontra
    exact h ⟨q, hq, hcontra⟩

theorem runUpserts_unique (cfg : HolidayApiConfig) :
    ∀ (cands : List (String × String)) (db : Db), UniqueTriples db.holidays →
    UniqueTriples (runUpserts cfg cands db).2.holidays := by
  intro cands
  induction cands with
  | nil => exact fun db hu => hu
  | cons td rest ih =>
    intro db hu
    rw [runUpserts_cons]
    exact ih _ (upsert_unique cfg td.1 td.2 db hu)

theorem customLoop_unique (cfg : HolidayApiConfig) (tf df : String) :
    ∀ (hs : List Json) (n : Nat) (db : Db), UniqueTriples db.holidays →
    (∀ cnt db', customLoop cfg tf df hs n db = .ok (cnt, db') → UniqueTriples db'.holidays)
    ∧ (∀ m db', customLoop cfg tf df hs n db = .error (m, db') → UniqueTriples db'.holidays) := by
  intro hs
  induction hs with
  | nil =>
    intro n db hu
    constructor
    · intro cnt db' h
      simp only [customLoop, Except.ok.injEq, Prod.mk.injEq] at h
      rw [← h.2]
      exact hu
    · intro m db' h
      simp [customLoop] at h
  | cons h0 rest ih =>
    intro n db hu
    rcases he : customEntry tf df h0 with _ | ⟨t, d⟩ | _
    · constructor
      · intro cnt db' h
        rw [customLoop_cons_skip cfg tf df h0 rest n db he] at h
        exact (ih n db hu).1 cnt db' h
      · intro m db' h
        rw [customLoop_cons_skip cfg tf df h0 rest n db he] at h
        exact (ih n db hu).2 m db' h
    · constructor
      · intro cnt db' h
        rw [customLoop_cons_use cfg tf df h0 rest n db t d he] at h
        exact (ih _ _ (upsert_unique cfg t d db hu)).1 cnt db' h
      · intro m db' h
        rw [customLoop_cons_use cfg tf df h0 rest n db t d he] at h
        exact (ih _ _ (upsert_unique cfg t d db hu)).2 m db' h
    · constructor
      · intro cnt db' h
        rw [customLoop_cons_invalid cfg tf df h0 rest n db he] at h
        exact absurd h (by simp)
      · intro m db' h
        rw [customLoop_cons_invalid cfg tf df h0 rest n db he] at h
        simp only [Except.error.injEq, Prod.mk.injEq] at h
        rw [← h.2]
        exact hu

theorem fallbackFold_unique (cfg : HolidayApiConfig)
    (perDay : Nat → Nat → Except String (List AbstractHoliday)) (leap : Bool) :
    ∀ (days : List Nat) (n : Nat) (db : Db), UniqueTriples db.holidays →
    UniqueTriples (days.foldl (fallbackStep cfg perDay leap) (n, db)).2.holidays := by
  intro days
  induction days with
  | nil => exact fun n db hu => hu
  | cons d days ih =>
    intro n db hu
    simp only [List.foldl_cons]
    rcases he : perDay (dayOfYearToMonthDay leap d).1 (dayOfYearToMonthDay leap d).2 with msg | hs
    · rw [fallbackStep_err cfg perDay leap (n, db) d msg he]
      exact ih n db hu
    · rw [fallbackStep_ok cfg perDay leap (n, db) d hs he]
      by_cases hlen : hs.length > 0
      · rw [if_pos hlen]
        exact ih _ _ (runUpserts_unique cfg (hs.filterMap normalizeAbstract) db hu)
      · rw [if_neg hlen]
        exact ih n db hu

theorem syncFromApi_unique (env : Env) (cfg : HolidayApiConfig) (year : Nat) (db : Db)
    (hu : UniqueTriples db.holidays) :
    UniqueTriples (syncFromApi env cfg year db).2.holidays := by
  rcases ht : cfg.type
  case nager =>
    rw [syncFromApi_type_nager env cfg year db ht]
    rcases hf : env.nager cfg year with m | hs
    · exact hu
    · show UniqueTriples (addLog _ _ _ _).holidays
      rw [addLog_holidays]
      exact runUpserts_unique cfg _ db hu
  case calendarific =>
    rw [syncFromApi_type_cal env cfg year db ht]
    rcases hk : hasApiKey cfg with _ | _
    · simp only [syncCalendarificApi, hk]
      exact hu
    · simp only [syncCalendarificApi, hk]
      rcases hf : env.calendarific cfg year with m | hs
      · exact hu
      · show UniqueTriples (addLog _ _ _ _).holidays
        rw [addLog_holidays]
        exact runUpserts_unique cfg _ db hu
  case abstract =>
    rw [syncFromApi_type_abs env cfg year db ht]
    rcases hk : hasApiKey cfg with _ | _
    · have hrun : syncAbstractApi (env.abstractBulk cfg year) (env.abstractDay cfg year)
          (env.abstractFault cfg year) cfg year db = (0, db) := by
        simp [syncAbstractApi, hk]
      rw [hrun]
      exact hu
    · rcases hb : env.abstractBulk cfg year with hs | _ | ⟨code, m⟩
      · have hrun : syncAbstractApi (AbsBulk.arr hs) (env.abstractDay cfg year)
            (env.abstractFault cfg year) cfg year db
            = ((processHolidays cfg hs db).1,
               addLog cfg.id .success s!"Synced {(processHolidays cfg hs db).1} holidays for {year}"
                 (processHolidays cfg hs db).2) := by
          simp [syncAbstractApi, hk]
        rw [hrun]
        show UniqueTriples (addLog _ _ _ (processHolidays cfg hs db).2).holidays
        rw [addLog_holidays]
        exact runUpserts_unique cfg _ db hu
      · have hrun : syncAbstractApi AbsBulk.nonArray (env.abstractDay cfg year)
            (env.abstractFault cfg year) cfg year db
            = (0, addLog cfg.id .error "Invalid response format from API" db) := by
          simp [syncAbstractApi, hk, addLog]
        rw [hrun]
        exact hu
      · by_cases hcode : code = some "payment_required"
        · rcases hfault : env.abstractFault cfg year with _ | _
          · have hrun : syncAbstractApi (AbsBulk.fail code m) (env.abstractDay cfg year)
                false cfg year db
                = (((dayNums year).foldl (fallbackStep cfg (env.abstractDay cfg year) (isLeapYear year)) (0, db)).1,
                   addLog cfg.id .success
                     s!"Synced {((dayNums year).foldl (fallbackStep cfg (env.abstractDay cfg year) (isLeapYear year)) (0, db)).1} holidays for {year} (free plan - day by day)"
                     ((dayNums year).foldl (fallbackStep cfg (env.abstractDay cfg year) (isLeapYear year)) (0, db)).2) := by
              simp [syncAbstractApi, hk, hcode]
            rw [hrun]
            show UniqueTriples (addLog _ _ _
              ((dayNums year).foldl (fallbackStep cfg (env.abstractDay cfg year) (isLeapYear year)) (0, db)).2).holidays
            rw [addLog_holidays]
            exact fallbackFold_unique cfg (env.abstractDay cfg year) (isLeapYear year)
              (dayNums year) 0 db hu
          · have hrun : syncAbstractApi (AbsBulk.fail code m) (env.abstractDay cfg year)
                true cfg year db
                = (0, addLog cfg.id .error "Free plan sync failed" db) := by
              simp [syncAbstractApi, hk, hcode, addLog]
            rw [hrun]
            exact hu
        · have hrun : syncAbstractApi (AbsBulk.fail code m) (env.abstractDay cfg year)
              (env.abstractFault cfg year) cfg year db
              = (0, addLog cfg.id .error m db) := by
            simp [syncAbstractApi, hk, hcode, addLog]
          rw [hrun]
          exact hu
  case custom =>
    rw [syncFromApi_type_custom env cfg year db ht]
    rcases hf : env.custom cfg year with m | data
    · exact hu
    · rcases hn : navigate cfg.responsePathToHolidays data with _ | j
      · rw [syncCustomApi_notArr data cfg year db (by rw [hn]; rfl)]
        exact hu
      · cases j with
        | arr hs =>
          rw [syncCustomApi_arr data cfg year db hs hn]
          rcases hloop : customLoop cfg (strOr cfg.titleField "name") (strOr cfg.dateField "date") hs 0 db
            with ⟨m, db'⟩ | ⟨cnt, db'⟩
          · show UniqueTriples (addLog _ _ _ _).holidays
            rw [addLog_holidays]
            exact (customLoop_unique cfg _ _ hs 0 db hu).2 m db' hloop
          · show UniqueTriples (addLog _ _ _ _).holidays
            rw [addLog_holidays]
            exact (customLoop_unique cfg _ _ hs 0 db hu).1 cnt db' hloop
        | null =>
          rw [syncCustomApi_notArr data cfg year db (by rw [hn]; rfl)]
          exact hu
        | bool b =>
          rw [syncCustomApi_notArr data cfg year db (by rw [hn]; rfl)]
          exact hu
        | num n =>
          rw [syncCustomApi_notArr data cfg year db (by rw [hn]; rfl)]
          exact hu
        | str s =>
          rw [syncCustomApi_notArr data cfg year db (by rw [hn]; rfl)]
          exact hu
        | obj fields =>
          rw [syncCustomApi_notArr data cfg year db (by rw [hn]; rfl)]
          exact hu

theorem rollStep_unique (year : Nat) (acc : Nat × Db) (h0 : HolidayRecord)
    (hu : UniqueTriples acc.2.holidays) :
    UniqueTriples (rollStep year acc h0).2.holidays := by
  by_cases h : CoveredPair acc.2 h0.title (rollTarget year h0.date)
  · rw [rollStep_covered year acc h0 h]
    exact hu
  · rw [rollStep_not_covered_gen year acc h0 h]
    show UniqueTriples (acc.2.holidays ++ [_])
    refine UniqueTriples_append_one acc.2.holidays _ hu ?_
    intro q hq hcontra
    exact h ⟨q, hq, hcontra.1, hcontra.2.1⟩

theorem rollFold_unique (year : Nat) :
    ∀ (recs : List HolidayRecord) (n : Nat) (db : Db), UniqueTriples db.holidays →
    UniqueTriples ((recs.foldl (rollStep year) (n, db)).2).holidays := by
  intro recs
  induction recs with
  | nil => exact fun n db hu => hu
  | cons h0 rest ih =>
    intro n db hu
    simp only [List.foldl_cons]
    rcases hrs : rollStep year (n, db) h0 with ⟨n1, db1⟩
    have := rollStep_unique year (n, db) h0 hu
    rw [hrs] at this
    exact ih n1 db1 this

theorem syncLoop_unique (env : Env) (year : Nat) :
    ∀ (cfgs : List HolidayApiConfig) (acc : Nat × List (String × Nat) × Db),
    UniqueTriples acc.2.2.holidays →
    UniqueTriples (syncLoop env year cfgs acc).2.2.holidays := by
  intro cfgs
  induction cfgs with
  | nil => exact fun acc hu => hu
  | cons cfg rest ih =>
    intro acc hu
    rw [syncLoop_cons]
    exact ih _ (syncFromApi_unique env cfg year acc.2.2 hu)

theorem syncHolidays_unique (env : Env) (configs : List HolidayApiConfig) (year : Nat) (db : Db)
    (hu : UniqueTriples db.holidays) :
    UniqueTriples (dbOut (syncHolidays env configs year db)).holidays := by
  rw [syncHolidays_eq]
  by_cases hemp : (configs.filter (·.enabled)).isEmpty
  · rw [if_pos hemp]
    exact hu
  · rw [if_neg hemp]
    have hloopU : UniqueTriples (syncLoop env year (configs.filter (·.enabled)) (0, [], db)).2.2.holidays :=
      syncLoop_unique env year (configs.filter (·.enabled)) (0, [], db) hu
    rcases hfault : env.rollerFault with _ | m
    · rw [roller_ok]
      exact rollFold_unique year _ 0 _ hloopU
    · exact hloopU

/-! ## Behaviour on an uncaught fetch failure -/

theorem fetchFails_result (env : Env) (cfg : HolidayApiConfig) (year : Nat) (db : Db) (m : String)
    (h : FetchFails env cfg year m) :
    syncFromApi env cfg year db = (0, addLog cfg.id .error m db) := by
  unfold FetchFails at h
  rcases ht : cfg.type
  case nager =>
    rw [ht] at h
    have h' : env.nager cfg year = .error m := h
    rw [syncFromApi_type_nager env cfg year db ht, h']
    rfl
  case calendarific =>
    rw [ht] at h
    have h' : hasApiKey cfg = true ∧ env.calendarific cfg year = .error m := h
    rw [syncFromApi_type_cal env cfg year db ht]
    simp [syncCalendarificApi, h'.1, h'.2, addLog]
  case abstract =>
    rw [ht] at h
    have h' : hasApiKey cfg = true ∧
        ((∃ code, env.abstractBulk cfg year = .fail code m ∧ code ≠ some "payment_required")
          ∨ (env.abstractBulk cfg year = .nonArray ∧ m = "Invalid response format from API")) := h
    rw [syncFromApi_type_abs env cfg year db ht]
    rcases h'.2 with ⟨code, hbe, hcne⟩ | ⟨hbe, hme⟩
    · simp [syncAbstractApi, h'.1, hbe, hcne, addLog]
    · subst hme
      simp [syncAbstractApi, h'.1, hbe, addLog]
  case custom =>
    rw [ht] at h
    have h' : env.custom cfg year = .error m := h
    rw [syncFromApi_type_custom env cfg year db ht, h']
    rfl

/-! ## Per-provider breakdown keys -/

theorem setDetail_self_mem (l : List (String × Nat)) (k : String) (v : Nat) :
    ∃ n, (k, n) ∈ setDetail l k v := by
  unfold setDetail
  by_cases hany : l.any (fun q => q.1 == k)
  · rw [if_pos hany]
    obtain ⟨q, hq, hbeq⟩ := List.any_eq_true.mp hany
    have hql : q.1 = k := by simpa using hbeq
    refine ⟨v, ?_⟩
    have he : (k, v) = (fun p => if p.1 == k then (p.1, v) else p) q := by
      simp [hbeq, hql]
    rw [he]
    exact List.mem_map_of_mem _ hq
  · rw [if_neg hany]
    exact ⟨v, List.mem_append_right l (List.mem_singleton.mpr rfl)⟩

theorem setDetail_keeps (l : List (String × Nat)) (k k' : String) (v n : Nat)
    (h : (k', n) ∈ l) : ∃ n', (k', n') ∈ setDetail l k v := by
  unfold setDetail
  by_cases hany : l.any (fun q => q.1 == k)
  · rw [if_pos hany]
    by_cases hk : k' == k
    · refine ⟨v, ?_⟩
      have : (k', v) = (fun p => if p.1 == k then (p.1, v) else p) (k', n) := by
        simp [hk]
      rw [this]
      exact List.mem_map_of_mem _ h
    · refine ⟨n, ?_⟩
      have : (k', n) = (fun p => if p.1 == k then (p.1, v) else p) (k', n) := by
        simp [hk]
      rw [this]
      exact List.mem_map_of_mem _ h
  · rw [if_neg hany]
    exact ⟨n, List.mem_append_left _ h⟩

theorem syncLoop_keys (env : Env) (year : Nat) :
    ∀ (cfgs : List HolidayApiConfig) (acc : Nat × List (String × Nat) × Db)
      (cfg : HolidayApiConfig),
    (cfg ∈ cfgs ∨ ∃ n, (cfg.id, n) ∈ acc.2.1) →
    ∃ n, (cfg.id, n) ∈ (syncLoop env year cfgs acc).2.1 := by
  intro cfgs
  induction cfgs with
  | nil =>
    intro acc cfg h
    rcases h with h | h
    · exact absurd h (List.not_mem_nil cfg)
    · exact h
  | cons cfg0 rest ih =>
    intro acc cfg h
    rw [syncLoop_cons]
    rcases h with h | ⟨n, hn⟩
    · rcases List.mem_cons.mp h with he | hmem
      · subst he
        refine ih _ cfg (Or.inr ?_)
        exact setDetail_self_mem acc.2.1 cfg.id _
      · exact ih _ cfg (Or.inl hmem)
    · refine ih _ cfg (Or.inr ?_)
      exact setDetail_keeps acc.2.1 cfg0.id cfg.id _ n hn

theorem syncHolidays_details_keys (env : Env) (configs : List HolidayApiConfig) (year : Nat)
    (db : Db) (res : SyncResult) (db' : Db)
    (h : syncHolidays env configs year db = .ok (res, db')) :
    ∀ cfg ∈ configs.filter (·.enabled), ∃ n, (cfg.id, n) ∈ res.details := by
  rw [syncHolidays_eq] at h
  by_cases hemp : (configs.filter (·.enabled)).isEmpty
  · intro cfg hc
    rw [List.isEmpty_iff.mp hemp] at hc
    exact absurd hc (List.not_mem_nil cfg)
  · rw [if_neg hemp] at h
    rcases hfault : env.rollerFault with _ | m
    · rw [hfault, roller_ok] at h
      simp only [Except.ok.injEq, Prod.mk.injEq] at h
      intro cfg hc
      have hkeys := syncLoop_keys env year (configs.filter (·.enabled)) (0, [], db) cfg (Or.inl hc)
      have hdet : res.details = (syncLoop env year (configs.filter (·.enabled)) (0, [], db)).2.1 := by
        rw [← h.1]
      rw [hdet]
      exact hkeys
    · rw [hfault] at h
      exact absurd h (by simp [syncRecurringHolidays])

/-! ## Fallback day-loop facts -/

theorem isLeapYear_iff (y : Nat) :
    isLeapYear y = true ↔ ((y % 4 = 0 ∧ y % 100 ≠ 0) ∨ y % 400 = 0) := by
  simp [isLeapYear]

theorem daysInYear_formula (y : Nat) :
    daysInYear y = if (y % 4 = 0 ∧ y % 100 ≠ 0) ∨ y % 400 = 0 then 366 else 365 := by
  unfold daysInYear
  by_cases h : (y % 4 = 0 ∧ y % 100 ≠ 0) ∨ y % 400 = 0
  · rw [if_pos h, if_pos ((isLeapYear_iff y).mpr h)]
  · rw [if_neg h, if_neg (fun hb => h ((isLeapYear_iff y).mp hb))]

theorem dayNums_length (y : Nat) : (dayNums y).length = daysInYear y := by
  simp [dayNums]

theorem fallbackDays_eq (y : Nat) :
    (dayNums y).map (dayOfYearToMonthDay (isLeapYear y)) = allDaysList (isLeapYear y) := by
  cases h : isLeapYear y
  · simp only [dayNums, daysInYear, h]
    decide
  · simp only [dayNums, daysInYear, h]
    decide

theorem dayLtB_trans (p q r : Nat × Nat) (h1 : dayLtB p q = true) (h2 : dayLtB q r = true) :
    dayLtB p r = true := by
  simp only [dayLtB, Bool.or_eq_true, Bool.and_eq_true, beq_iff_eq, decide_eq_true_eq] at *
  omega

theorem dayChainB_head (q : Nat × Nat) :
    ∀ (rest : List (Nat × Nat)), dayChainB (q :: rest) = true → ∀ x ∈ rest, dayLtB q x = true := by
  intro rest
  induction rest generalizing q with
  | nil => intro _ x hx; exact absurd hx (List.not_mem_nil x)
  | cons r rest ih =>
    intro hch x hx
    have hch' : dayLtB q r = true ∧ dayChainB (r :: rest) = true := by
      simpa [dayChainB] using hch
    rcases List.mem_cons.mp hx with he | hm
    · subst he
      exact hch'.1
    · exact dayLtB_trans q r x hch'.1 (ih r hch'.2 x hm)

theorem dayChainB_pairwise :
    ∀ (l : List (Nat × Nat)), dayChainB l = true → l.Pairwise (fun p q => dayLtB p q = true) := by
  intro l
  induction l with
  | nil => exact fun _ => List.Pairwise.nil
  | cons p rest ih =>
    intro hch
    cases rest with
    | nil => exact List.pairwise_singleton _ p
    | cons q rest' =>
      have hch' : dayLtB p q = true ∧ dayChainB (q :: rest') = true := by
        simpa [dayChainB] using hch
      refine List.Pairwise.cons ?_ (ih hch'.2)
      intro x hx
      rcases List.mem_cons.mp hx with he | hm
      · subst he
        exact hch'.1
      · exact dayLtB_trans p q x hch'.1 (dayChainB_head q rest' hch'.2 x hm)

theorem allDaysList_nodup (leap : Bool) : (allDaysList leap).Nodup := by
  have hch : dayChainB (allDaysList leap) = true := by
    cases leap
    · decide
    · decide
  have hpw := dayChainB_pairwise (allDaysList leap) hch
  exact hpw.imp (fun {a b} hlt => by
    intro he
    subst he
    simp only [dayLtB, Bool.or_eq_true, Bool.and_eq_true, beq_iff_eq, decide_eq_true_eq] at hlt
    omega)

theorem fallbackStep_erase (cfg : HolidayApiConfig)
    (perDay : Nat → Nat → Except String (List AbstractHoliday)) (leap : Bool)
    (acc : Nat × Db) (n : Nat) :
    fallbackStep cfg perDay leap acc n
      = fallbackStep cfg
          (fun mo d => match perDay mo d with | .error _ => .ok [] | .ok hs => .ok hs)
          leap acc n := by
  rcases he : perDay (dayOfYearToMonthDay leap n).1 (dayOfYearToMonthDay leap n).2 with msg | hs
  · rw [fallbackStep_err cfg perDay leap acc n msg he,
      fallbackStep_ok cfg _ leap acc n [] (by rw [he])]
    simp
  · rw [fallbackStep_ok cfg perDay leap acc n hs he,
      fallbackStep_ok cfg _ leap acc n hs (by rw [he])]

theorem fallbackFold_erase (cfg : HolidayApiConfig)
    (perDay : Nat → Nat → Except String (List AbstractHoliday)) (leap : Bool)
    (days : List Nat) (acc : Nat × Db) :
    days.foldl (fallbackStep cfg perDay leap) acc
      = days.foldl
          (fallbackStep cfg
            (fun mo d => match perDay mo d with | .error _ => .ok [] | .ok hs => .ok hs) leap)
          acc := by
  have hf : fallbackStep cfg perDay leap
      = fallbackStep cfg
          (fun mo d => match perDay mo d with | .error _ => .ok [] | .ok hs => .ok hs) leap := by
    funext a n
    exact fallbackStep_erase cfg perDay leap a n
  rw [hf]

theorem fallbackFold_id (cfg : HolidayApiConfig)
    (perDay : Nat → Nat → Except String (List AbstractHoliday)) (leap : Bool) :
    ∀ (days : List Nat) (acc : Nat × Db),
    (∀ d ∈ days, perDay (dayOfYearToMonthDay leap d).1 (dayOfYearToMonthDay leap d).2 = .ok []) →
    days.foldl (fallbackStep cfg perDay leap) acc = acc := by
  intro days
  induction days with
  | nil => exact fun acc _ => rfl
  | cons d days ih =>
    intro acc h
    simp only [List.foldl_cons]
    rw [fallbackStep_ok cfg perDay leap acc d [] (h d (List.mem_cons_self d days))]
    simp only [List.length_nil, gt_iff_lt, Nat.lt_irrefl, if_false]
    exact ih acc (fun d' hd' => h d' (List.mem_cons_of_mem d hd'))

theorem fallbackFold_single (cfg : HolidayApiConfig)
    (perDay : Nat → Nat → Except String (List AbstractHoliday)) (leap : Bool) :
    ∀ (days : List Nat) (n0 : Nat) (hs : List AbstractHoliday) (n : Nat) (db : Db),
    days.Nodup → n0 ∈ days →
    perDay (dayOfYearToMonthDay leap n0).1 (dayOfYearToMonthDay leap n0).2 = .ok hs →
    (∀ d ∈ days, d ≠ n0 →
      perDay (dayOfYearToMonthDay leap d).1 (dayOfYearToMonthDay leap d).2 = .ok []) →
    days.foldl (fallbackStep cfg perDay leap) (n, db)
      = (n + (processHolidays cfg hs db).1, (processHolidays cfg hs db).2) := by
  intro days
  induction days with
  | nil => intro n0 hs n db _ hmem; exact absurd hmem (List.not_mem_nil n0)
  | cons d days ih =>
    intro n0 hs n db hnd hmem hn0 hothers
    have hndTail : days.Nodup := (List.nodup_cons.mp hnd).2
    have hdnotmem : d ∉ days := (List.nodup_cons.mp hnd).1
    simp only [List.foldl_cons]
    by_cases hd : d = n0
    · subst hd
      rw [fallbackStep_ok cfg perDay leap (n, db) d hs hn0]
      have hrest : ∀ d' ∈ days,
          perDay (dayOfYearToMonthDay leap d').1 (dayOfYearToMonthDay leap d').2 = .ok [] := by
        intro d' hd'
        refine hothers d' (List.mem_cons_of_mem d hd') ?_
        intro he
        exact hdnotmem (he ▸ hd')
      by_cases hlen : hs.length > 0
      · rw [if_pos hlen]
        exact fallbackFold_id cfg perDay leap days _ hrest
      · rw [if_neg hlen]
        have hz : hs = [] := List.length_eq_zero.mp (by omega)
        subst hz
        rw [fallbackFold_id cfg perDay leap days _ hrest]
        simp [processHolidays, runUpserts_nil]
    · have hde : perDay (dayOfYearToMonthDay leap d).1 (dayOfYearToMonthDay leap d).2 = .ok [] :=
        hothers d (List.mem_cons_self d days) hd
      rw [fallbackStep_ok cfg perDay leap (n, db) d [] hde]
      simp only [List.length_nil, gt_iff_lt, Nat.lt_irrefl, if_false]
      have hmem' : n0 ∈ days := by
        rcases List.mem_cons.mp hmem with he | hm
        · exact absurd he.symm hd
        · exact hm
      exact ih n0 hs n db hndTail hmem' hn0
        (fun d' hd' hne => hothers d' (List.mem_cons_of_mem d hd') hne)

/-! ## Calendarific fun-filter facts -/

theorem normalizeCal_fun_some (h : CalHoliday) (p : String × String)
    (he : normalizeCal Category.«fun» h = some p) :
    p.1 = h.name ∧ typeHas h "Federal" = false ∧ typeHas h "Public" = false
    ∧ keywordHit h.name = true := by
  unfold normalizeCal at he
  by_cases h1 : (Category.«fun» = Category.«fun»
      ∧ (typeHas h "Federal" = true ∨ typeHas h "Public" = true))
  · rw [if_pos h1] at he
    exact absurd he (by simp)
  · rw [if_neg h1] at he
    by_cases h2 : (Category.«fun» = Category.«fun» ∧ keywordHit h.name = false)
    · rw [if_pos h2] at he
      exact absurd he (by simp)
    · rw [if_neg h2] at he
      simp only [eq_self_iff_true, true_and, not_or, Bool.not_eq_true] at h1
      simp only [eq_self_iff_true, true_and, Bool.not_eq_false] at h2
      refine ⟨?_, h1.1, h1.2, h2⟩
      unfold calDateOf at he
      rcases hiso : h.dateIso with _ | iso
      · rw [hiso] at he
        exact absurd he (by simp)
      · rw [hiso] at he
        simp at he
        rw [← he.2]

/-! ## The claims -/

/-- C1, counterexample: `runSync` can throw.  With one enabled provider and a
recurrence-roller store failure, the top-level `syncHolidays` ends in a
propagated exception (the `.error` case), not a counts object: the roller's
`catch` re-throws and `syncHolidays` does not catch. -/
theorem c1_runSync_throws_counterexample :
    syncHolidays envRollerFault [cfgNager] 2025 dbEmpty
      = .error ("database connection lost",
          ⟨[], [⟨"nager-us", .success, "Synced 0 holidays for 2025"⟩], 0⟩) := by
  rfl

/-- C1, amended: for every configuration list and every behaviour of the
provider adapters (including any of them raising an error), `syncHolidays`
returns a counts object provided the recurrence roller raises no error;
when the roller raises and at least one provider is enabled, the roller's
exception propagates out of `runSync`. -/
theorem c1_runSync_throw_surface :
    (∀ (env : Env) (configs : List HolidayApiConfig) (year : Nat) (db : Db),
      env.rollerFault = none →
      ∃ res db', syncHolidays env configs year db = .ok (res, db'))
    ∧ (∀ (env : Env) (configs : List HolidayApiConfig) (year : Nat) (db : Db) (m : String),
      env.rollerFault = some m → (configs.filter (·.enabled)).isEmpty = false →
      ∃ db', syncHolidays env configs year db = .error (m, db')) := by
  constructor
  · exact syncHolidays_ok_of_no_fault
  · intro env configs year db m hf hne
    exact ⟨_, syncHolidays_err_of_fault env configs year db m hf hne⟩

/-- C1 witness. -/
theorem c1_runSync_throw_surface_witness :
    (envOkEmpty.rollerFault = none
      ∧ ∃ res db', syncHolidays envOkEmpty [cfgNager] 2025 dbEmpty = .ok (res, db'))
    ∧ (envRollerFault.rollerFault = some "database connection lost"
      ∧ ([cfgNager].filter (·.enabled)).isEmpty = false
      ∧ ∃ db', syncHolidays envRollerFault [cfgNager] 2025 dbEmpty
          = .error ("database connection lost", db')) :=
  ⟨⟨rfl, c1_runSync_throw_surface.1 envOkEmpty [cfgNager] 2025 dbEmpty rfl⟩,
   ⟨rfl, by decide,
    c1_runSync_throw_surface.2 envRollerFault [cfgNager] 2025 dbEmpty
      "database connection lost" rfl (by decide)⟩⟩

/-- C2: rerunning `syncHolidays` with the same environment immediately after
a successful run creates no record: the second run returns with total `0`,
recurring `0`, every per-provider count `0`, and the holiday store
unchanged. -/
theorem c2_rerun_creates_nothing (env : Env) (configs : List HolidayApiConfig) (year : Nat)
    (db : Db) (res1 : SyncResult) (db1 : Db)
    (h1 : syncHolidays env configs year db = .ok (res1, db1)) :
    ∃ res2 db2, syncHolidays env configs year db1 = .ok (res2, db2)
      ∧ db2.holidays = db1.holidays
      ∧ res2.total = 0 ∧ res2.recurring = 0 ∧ ∀ p ∈ res2.details, p.2 = 0 :=
  rerun_zero env configs year db res1 db1 h1

/-- C2 witness. -/
theorem c2_rerun_creates_nothing_witness :
    (syncHolidays envOneNager [cfgNager] 2025 dbEmpty
        = .ok (⟨1, 0, [("nager-us", 1)]⟩,
            ⟨[recIndep], [⟨"nager-us", .success, "Synced 1 holidays for 2025"⟩], 1⟩))
    ∧ ∃ res2 db2, syncHolidays envOneNager [cfgNager] 2025
          ⟨[recIndep], [⟨"nager-us", .success, "Synced 1 holidays for 2025"⟩], 1⟩
          = .ok (res2, db2)
        ∧ db2.holidays = [recIndep]
        ∧ res2.total = 0 ∧ res2.recurring = 0 ∧ ∀ p ∈ res2.details, p.2 = 0 :=
  ⟨rfl,
   c2_rerun_creates_nothing envOneNager [cfgNager] 2025 dbEmpty
     ⟨1, 0, [("nager-us", 1)]⟩
     ⟨[recIndep], [⟨"nager-us", .success, "Synced 1 holidays for 2025"⟩], 1⟩ rfl⟩

/-- C3: starting from a store in which no two records share a
`(title, date, source)` triple, any sequential run of the sync engine
(all adapters' upsert loops followed by the recurrence roller, whether it
returns or throws) leaves at most one record per triple. -/
theorem c3_dedup_key_unique (env : Env) (configs : List HolidayApiConfig) (year : Nat) (db : Db)
    (hu : UniqueTriples db.holidays) :
    UniqueTriples (dbOut (syncHolidays env configs year db)).holidays :=
  syncHolidays_unique env configs year db hu

/-- C3 witness. -/
theorem c3_dedup_key_unique_witness :
    UniqueTriples dbEmpty.holidays
    ∧ UniqueTriples (dbOut (syncHolidays envOneNager [cfgNager] 2025 dbEmpty)).holidays :=
  ⟨List.Pairwise.nil,
   c3_dedup_key_unique envOneNager [cfgNager] 2025 dbEmpty List.Pairwise.nil⟩

theorem rollTarget_of_split (year : Nat) (s yy mm dd : String)
    (h : jsSplit '-' s = [yy, mm, dd]) : rollTarget year s = mkDate year mm dd := by
  unfold rollTarget
  rw [h]
  rfl

/-- C4: the recurrence roller, for a record dated `Y-MM-DD`, targets
`targetYear-MM-DD`, matching for existence on `(title, date)` only; a
creation copies the original's title, category, colour, source and
visibility and forces `recurring = true`, while a match leaves everything
unchanged; and rolling again to the same year is a no-op (zero created,
store unchanged). -/
theorem c4_recurrence_rollover :
    (∀ (year n : Nat) (db : Db) (h : HolidayRecord) (yy mm dd : String),
      jsSplit '-' h.date = [yy, mm, dd] →
      (¬ CoveredPair db h.title (mkDate year mm dd) →
        rollStep year (n, db) h
          = (n + 1, createHoliday h.title (mkDate year mm dd) h.category h.color h.source
              h.visible true db))
      ∧ (CoveredPair db h.title (mkDate year mm dd) → rollStep year (n, db) h = (n, db)))
    ∧ (∀ (year : Nat) (db : Db) (c : Nat) (db' : Db),
      syncRecurringHolidays none year db = .ok (c, db') →
      syncRecurringHolidays none year db' = .ok (0, db')) := by
  constructor
  · intro year n db h yy mm dd hsplit
    have ht := rollTarget_of_split year h.date yy mm dd hsplit
    constructor
    · intro hnc
      have := rollStep_not_covered year n db h (by rw [ht]; exact hnc)
      rw [ht] at this
      exact this
    · intro hc
      exact rollStep_covered year (n, db) h (by rw [ht]; exact hc)
  · intro year db c db' h
    exact roller_stable year db' (roller_sat_after year db c db' h)

/-- C4 witness. -/
theorem c4_recurrence_rollover_witness :
    (jsSplit '-' recPicnic.date = ["2024", "03", "15"]
      ∧ ¬ CoveredPair dbPicnic recPicnic.title (mkDate 2026 "03" "15")
      ∧ rollStep 2026 (0, dbPicnic) recPicnic
          = (0 + 1, createHoliday recPicnic.title (mkDate 2026 "03" "15") recPicnic.category
              recPicnic.color recPicnic.source recPicnic.visible true dbPicnic))
    ∧ (syncRecurringHolidays none 2026 dbPicnic
        = .ok (1, ⟨[recPicnic, ⟨2, "Company Picnic", "2026-03-15", "company", "#059669",
            "manual", true, true⟩], [], 3⟩)
      ∧ syncRecurringHolidays none 2026
          ⟨[recPicnic, ⟨2, "Company Picnic", "2026-03-15", "company", "#059669",
            "manual", true, true⟩], [], 3⟩
        = .ok (0, ⟨[recPicnic, ⟨2, "Company Picnic", "2026-03-15", "company", "#059669",
            "manual", true, true⟩], [], 3⟩)) :=
  ⟨⟨by decide, by decide,
    (c4_recurrence_rollover.1 2026 0 dbPicnic recPicnic "2024" "03" "15" (by decide)).1
      (by decide)⟩,
   ⟨by decide,
    c4_recurrence_rollover.2 2026 dbPicnic 1
      ⟨[recPicnic, ⟨2, "Company Picnic", "2026-03-15", "company", "#059669",
        "manual", true, true⟩], [], 3⟩ (by decide)⟩⟩

/-- C5: a provider whose fetch/parse throws (and is not redirected into the
Abstract free-plan fallback) is isolated: its adapter returns a zero count
and appends exactly one `status=error` log entry carrying the error's
message; and with the roller healthy, the orchestrator still returns
aggregate counts normally with a per-provider entry for every enabled
config. -/
theorem c5_provider_isolation :
    (∀ (env : Env) (cfg : HolidayApiConfig) (year : Nat) (db : Db) (m : String),
      FetchFails env cfg year m →
      syncFromApi env cfg year db = (0, addLog cfg.id .error m db))
    ∧ (∀ (env : Env) (configs : List HolidayApiConfig) (year : Nat) (db : Db),
      env.rollerFault = none →
      ∃ res db', syncHolidays env configs year db = .ok (res, db')
        ∧ ∀ cfg ∈ configs.filter (·.enabled), ∃ n, (cfg.id, n) ∈ res.details) := by
  constructor
  · exact fetchFails_result
  · intro env configs year db hf
    obtain ⟨res, db', h⟩ := syncHolidays_ok_of_no_fault env configs year db hf
    exact ⟨res, db', h, syncHolidays_details_keys env configs year db res db' h⟩

/-- C5 witness. -/
theorem c5_provider_isolation_witness :
    (FetchFails envNagerFail cfgNager 2025 "network down"
      ∧ syncFromApi envNagerFail cfgNager 2025 dbEmpty
          = (0, addLog cfgNager.id .error "network down" dbEmpty))
    ∧ (envNagerFail.rollerFault = none
      ∧ ∃ res db', syncHolidays envNagerFail [cfgNager] 2025 dbEmpty = .ok (res, db')
        ∧ ∀ cfg ∈ [cfgNager].filter (·.enabled), ∃ n, (cfg.id, n) ∈ res.details) :=
  ⟨⟨rfl, c5_provider_isolation.1 envNagerFail cfgNager 2025 dbEmpty "network down" rfl⟩,
   ⟨rfl, c5_provider_isolation.2 envNagerFail [cfgNager] 2025 dbEmpty rfl⟩⟩

/-- C6, counterexample: with one enabled custom provider whose response body
is a non-array object, the whole sync run appends **no** `SyncLogEntry` at
all — the attempt is neither logged as success nor as a `status=error`
entry; the store comes back exactly as it went in. -/
theorem c6_no_log_for_non_array_counterexample :
    syncHolidays envCustomNonArray [cfgCustom] 2025 dbEmpty
      = .ok (⟨0, 0, [("custom-1", 0)]⟩, dbEmpty) := by
  rfl

/-- C6, amended: every adapter attempt appends at most one log entry, and a
thrown transport/parse failure appends exactly one `status=error` entry
carrying the message — but the custom adapter's non-array (after the path
walk) response appends no log entry at all and silently contributes
zero. -/
theorem c6_log_discipline :
    (∀ (env : Env) (cfg : HolidayApiConfig) (year : Nat) (db : Db),
      ∃ ls, (syncFromApi env cfg year db).2.logs = db.logs ++ ls ∧ ls.length ≤ 1)
    ∧ (∀ (env : Env) (cfg : HolidayApiConfig) (year : Nat) (db : Db) (m : String),
      FetchFails env cfg year m →
      (syncFromApi env cfg year db).2.logs = db.logs ++ [⟨cfg.id, .error, m⟩])
    ∧ (∀ (env : Env) (cfg : HolidayApiConfig) (year : Nat) (db : Db) (data : Json),
      cfg.type = .custom → env.custom cfg year = .ok data →
      jsIsArray (navigate cfg.responsePathToHolidays data) = false →
      syncFromApi env cfg year db = (0, db)) := by
  refine ⟨?_, ?_, ?_⟩
  · intro env cfg year db
    obtain ⟨ds, ls, _, h2, h3, _⟩ := (syncFromApi_main env cfg year db).1
    exact ⟨ls, h2, h3⟩
  · intro env cfg year db m hf
    rw [fetchFails_result env cfg year db m hf]
    rfl
  · intro env cfg year db data ht hfetch hnarr
    rw [syncFromApi_type_custom env cfg year db ht, hfetch]
    exact syncCustomApi_notArr data cfg year db hnarr

/-- C6 witness. -/
theorem c6_log_discipline_witness :
    (∃ ls, (syncFromApi envCustomNonArray cfgCustom 2025 dbEmpty).2.logs
        = dbEmpty.logs ++ ls ∧ ls.length ≤ 1)
    ∧ (FetchFails envNagerFail cfgNager 2025 "network down"
      ∧ (syncFromApi envNagerFail cfgNager 2025 dbEmpty).2.logs
          = dbEmpty.logs ++ [⟨cfgNager.id, .error, "network down"⟩])
    ∧ (cfgCustom.type = .custom
      ∧ envCustomNonArray.custom cfgCustom 2025 = .ok (Json.obj [])
      ∧ jsIsArray (navigate cfgCustom.responsePathToHolidays (Json.obj [])) = false
      ∧ syncFromApi envCustomNonArray cfgCustom 2025 dbEmpty = (0, dbEmpty)) :=
  ⟨c6_log_discipline.1 envCustomNonArray cfgCustom 2025 dbEmpty,
   ⟨rfl, c6_log_discipline.2.1 envNagerFail cfgNager 2025 dbEmpty "network down" rfl⟩,
   ⟨rfl, rfl, rfl,
    c6_log_discipline.2.2 envCustomNonArray cfgCustom 2025 dbEmpty (Json.obj []) rfl rfl rfl⟩⟩

theorem dayNums_nodup (y : Nat) : (dayNums y).Nodup := by
  unfold dayNums
  exact List.Nodup.map (fun a b h => by omega) (List.nodup_range _)

/-- C7: on a bulk error carrying the `payment_required` code, the Abstract
adapter issues one per-day request for each calendar day of the year — the
iterated day list maps exactly onto the duplicate-free list of all calendar
days, `366` of them under the source's leap rule, else `365`; a per-day
failure is swallowed exactly like an empty day and aborts nothing; a single
successful day is normalized and upserted through the same
`processHolidays` as the bulk path; and a fallback-body failure is logged
as one `status=error` entry (`Free plan sync failed`) with a zero count. -/
theorem c7_abstract_free_plan_fallback :
    (∀ y : Nat,
      (dayNums y).map (dayOfYearToMonthDay (isLeapYear y)) = allDaysList (isLeapYear y)
      ∧ (allDaysList (isLeapYear y)).Nodup
      ∧ (dayNums y).length = (if (y % 4 = 0 ∧ y % 100 ≠ 0) ∨ y % 400 = 0 then 366 else 365))
    ∧ (∀ (cfg : HolidayApiConfig) (year : Nat) (db : Db)
        (perDay : Nat → Nat → Except String (List AbstractHoliday)) (m : String),
      syncAbstractApi (.fail (some "payment_required") m) perDay false cfg year db
        = syncAbstractApi (.fail (some "payment_required") m)
            (fun mo d => match perDay mo d with | .error _ => .ok [] | .ok hs => .ok hs)
            false cfg year db)
    ∧ (∀ (cfg : HolidayApiConfig) (year : Nat) (db : Db)
        (perDay : Nat → Nat → Except String (List AbstractHoliday)) (n0 : Nat)
        (hs : List AbstractHoliday) (m : String),
      hasApiKey cfg = true →
      n0 ∈ dayNums year →
      perDay (dayOfYearToMonthDay (isLeapYear year) n0).1
        (dayOfYearToMonthDay (isLeapYear year) n0).2 = .ok hs →
      (∀ d ∈ dayNums year, d ≠ n0 →
        perDay (dayOfYearToMonthDay (isLeapYear year) d).1
          (dayOfYearToMonthDay (isLeapYear year) d).2 = .ok []) →
      syncAbstractApi (.fail (some "payment_required") m) perDay false cfg year db
        = ((processHolidays cfg hs db).1,
           addLog cfg.id .success
             s!"Synced {(processHolidays cfg hs db).1} holidays for {year} (free plan - day by day)"
             (processHolidays cfg hs db).2))
    ∧ (∀ (cfg : HolidayApiConfig) (year : Nat) (db : Db)
        (perDay : Nat → Nat → Except String (List AbstractHoliday)) (m : String),
      hasApiKey cfg = true →
      syncAbstractApi (.fail (some "payment_required") m) perDay true cfg year db
        = (0, addLog cfg.id .error "Free plan sync failed" db)) := by
  refine ⟨?_, ?_, ?_, ?_⟩
  · intro y
    exact ⟨fallbackDays_eq y, allDaysList_nodup (isLeapYear y),
      by rw [dayNums_length, daysInYear_formula]⟩
  · intro cfg year db perDay m
    rcases hk : hasApiKey cfg with _ | _
    · simp [syncAbstractApi, hk]
    · have h1 : syncAbstractApi (.fail (some "payment_required") m) perDay false cfg year db
          = (((dayNums year).foldl (fallbackStep cfg perDay (isLeapYear year)) (0, db)).1,
             addLog cfg.id .success
               s!"Synced {((dayNums year).foldl (fallbackStep cfg perDay (isLeapYear year)) (0, db)).1} holidays for {year} (free plan - day by day)"
               ((dayNums year).foldl (fallbackStep cfg perDay (isLeapYear year)) (0, db)).2) := by
        simp [syncAbstractApi, hk]
      have h2 : syncAbstractApi (.fail (some "payment_required") m)
            (fun mo d => match perDay mo d with | .error _ => .ok [] | .ok hs => .ok hs)
            false cfg year db
          = (((dayNums year).foldl (fallbackStep cfg
                (fun mo d => match perDay mo d with | .error _ => .ok [] | .ok hs => .ok hs)
                (isLeapYear year)) (0, db)).1,
             addLog cfg.id .success
               s!"Synced {((dayNums year).foldl (fallbackStep cfg (fun mo d => match perDay mo d with | .error _ => .ok [] | .ok hs => .ok hs) (isLeapYear year)) (0, db)).1} holidays for {year} (free plan - day by day)"
               ((dayNums year).foldl (fallbackStep cfg
                 (fun mo d => match perDay mo d with | .error _ => .ok [] | .ok hs => .ok hs)
                 (isLeapYear year)) (0, db)).2) := by
        simp [syncAbstractApi, hk]
      rw [h1, h2, ← fallbackFold_erase cfg perDay (isLeapYear year) (dayNums year) (0, db)]
  · intro cfg year db perDay n0 hs m hk hmem hok hothers
    have h1 : syncAbstractApi (.fail (some "payment_required") m) perDay false cfg year db
        = (((dayNums year).foldl (fallbackStep cfg perDay (isLeapYear year)) (0, db)).1,
           addLog cfg.id .success
             s!"Synced {((dayNums year).foldl (fallbackStep cfg perDay (isLeapYear year)) (0, db)).1} holidays for {year} (free plan - day by day)"
             ((dayNums year).foldl (fallbackStep cfg perDay (isLeapYear year)) (0, db)).2) := by
      simp [syncAbstractApi, hk]
    rw [h1, fallbackFold_single cfg perDay (isLeapYear year) (dayNums year) n0 hs 0 db
      (dayNums_nodup year) hmem hok hothers]
    simp
  · intro cfg year db perDay m hk
    simp [syncAbstractApi, hk, addLog]

/-- C7 witness. -/
theorem c7_abstract_free_plan_fallback_witness :
    ((dayNums 2024).map (dayOfYearToMonthDay (isLeapYear 2024)) = allDaysList (isLeapYear 2024)
      ∧ (allDaysList (isLeapYear 2024)).Nodup
      ∧ (dayNums 2024).length
          = (if (2024 % 4 = 0 ∧ 2024 % 100 ≠ 0) ∨ 2024 % 400 = 0 then 366 else 365))
    ∧ (hasApiKey cfgAbs = true
      ∧ 8 ∈ dayNums 2025
      ∧ envAbsFree.abstractDay cfgAbs 2025 (dayOfYearToMonthDay (isLeapYear 2025) 8).1
          (dayOfYearToMonthDay (isLeapYear 2025) 8).2 = .ok [absHol8]
      ∧ (∀ d ∈ dayNums 2025, d ≠ 8 →
          envAbsFree.abstractDay cfgAbs 2025 (dayOfYearToMonthDay (isLeapYear 2025) d).1
            (dayOfYearToMonthDay (isLeapYear 2025) d).2 = .ok [])
      ∧ syncAbstractApi (.fail (some "payment_required") "Payment required")
          (envAbsFree.abstractDay cfgAbs 2025) false cfgAbs 2025 dbEmpty
          = ((processHolidays cfgAbs [absHol8] dbEmpty).1,
             addLog cfgAbs.id .success
               s!"Synced {(processHolidays cfgAbs [absHol8] dbEmpty).1} holidays for {2025} (free plan - day by day)"
               (processHolidays cfgAbs [absHol8] dbEmpty).2))
    ∧ syncAbstractApi (.fail (some "payment_required") "Payment required")
        (envAbsFree.abstractDay cfgAbs 2025) true cfgAbs 2025 dbEmpty
        = (0, addLog cfgAbs.id .error "Free plan sync failed" dbEmpty) :=
  ⟨c7_abstract_free_plan_fallback.1 2024,
   ⟨rfl, by decide, rfl, by decide,
    c7_abstract_free_plan_fallback.2.2.1 cfgAbs 2025 dbEmpty
      (envAbsFree.abstractDay cfgAbs 2025) 8 [absHol8] "Payment required"
      rfl (by decide) rfl (by decide)⟩,
   c7_abstract_free_plan_fallback.2.2.2 cfgAbs 2025 dbEmpty
     (envAbsFree.abstractDay cfgAbs 2025) "Payment required" rfl⟩

/-- C8: a provider upsert whose `findFirst` lookup on the
(title, date, source) triple hits an existing record returns that record
untouched and changes nothing; and a whole sync run only ever appends to
the holiday table — every pre-existing row survives verbatim, in place. -/
theorem c8_upsert_never_overwrites :
    (∀ (cfg : HolidayApiConfig) (t d : String) (db : Db) (r : HolidayRecord),
      findFirstTriple db t d cfg.id = some r →
      upsertProviderHoliday cfg t d db = (false, db))
    ∧ (∀ (env : Env) (configs : List HolidayApiConfig) (year : Nat) (db : Db),
      ∃ ds, (dbOut (syncHolidays env configs year db)).holidays = db.holidays ++ ds) := by
  constructor
  · intro cfg t d db r hf
    refine upsert_of_covered cfg t d db ?_
    unfold findFirstTriple at hf
    have hm := List.mem_of_find?_eq_some hf
    have hp := List.find?_some hf
    simp only [Bool.and_eq_true, beq_iff_eq] at hp
    exact ⟨r, hm, hp.1.1, hp.1.2, hp.2⟩
  · intro env configs year db
    exact (syncHolidays_extends env configs year db).1

/-- C8 witness. -/
theorem c8_upsert_never_overwrites_witness :
    (findFirstTriple dbIndep "Independence Day" "2025-07-04" cfgNager.id = some recIndep
      ∧ upsertProviderHoliday cfgNager "Independence Day" "2025-07-04" dbIndep = (false, dbIndep))
    ∧ ∃ ds, (dbOut (syncHolidays envOneNager [cfgNager] 2025 dbEmpty)).holidays
        = dbEmpty.holidays ++ ds :=
  ⟨⟨rfl, c8_upsert_never_overwrites.1 cfgNager "Independence Day" "2025-07-04" dbIndep recIndep rfl⟩,
   c8_upsert_never_overwrites.2 envOneNager [cfgNager] 2025 dbEmpty⟩

/-- C9: in the fun-category Calendarific sync, every record the run creates
comes from a fetched holiday that carries neither a `Federal` nor a
`Public` type tag and whose name matches one of the fun keywords
case-insensitively (this filter is the one in the `part_007` variant of the
service; the `syncService.ts` variant has no such filter). -/
theorem c9_fun_keyword_filter (cfg : HolidayApiConfig) (year : Nat) (db : Db)
    (hs : List CalHoliday) (c : Nat) (db' : Db) (r : HolidayRecord)
    (hcat : cfg.category = Category.«fun»)
    (hrun : syncCalendarificApi (.ok hs) cfg year db = (c, db'))
    (hin : r ∈ db'.holidays) (hnotin : r ∉ db.holidays) :
    ∃ h ∈ hs, r.title = h.name
      ∧ typeHas h "Federal" = false ∧ typeHas h "Public" = false
      ∧ keywordHit h.name = true := by
  rcases hk : hasApiKey cfg with _ | _
  · have h0 : syncCalendarificApi (.ok hs) cfg year db = (0, db) := by
      simp [syncCalendarificApi, hk]
    rw [h0] at hrun
    injection hrun with h1 h2
    subst h2
    exact absurd hin hnotin
  · have h1 : syncCalendarificApi (.ok hs) cfg year db
        = ((runUpserts cfg (hs.filterMap (normalizeCal cfg.category)) db).1,
           addLog cfg.id .success
             s!"Synced {(runUpserts cfg (hs.filterMap (normalizeCal cfg.category)) db).1} holidays for {year}"
             (runUpserts cfg (hs.filterMap (normalizeCal cfg.category)) db).2) := by
      simp [syncCalendarificApi, hk]
    rw [h1] at hrun
    injection hrun with hc hdb
    obtain ⟨ds, hH, hL, hmem⟩ := runUpserts_spec cfg (hs.filterMap (normalizeCal cfg.category)) db
    have hholds : db'.holidays = db.holidays ++ ds := by
      rw [← hdb]
      simp only [addLog]
      exact hH
    rw [hholds] at hin
    rcases List.mem_append.mp hin with h | h
    · exact absurd h hnotin
    · obtain ⟨p, hp, ht, hd, _⟩ := hmem r h
      obtain ⟨h0, hh0, hns⟩ := List.mem_filterMap.mp hp
      rw [hcat] at hns
      obtain ⟨hp1, hF, hP, hK⟩ := normalizeCal_fun_some h0 p hns
      exact ⟨h0, hh0, by rw [ht, hp1], hF, hP, hK⟩

/-- C9 witness. -/
theorem c9_fun_keyword_filter_witness :
    (cfgCal.category = Category.«fun»
      ∧ syncCalendarificApi (.ok [calFunHol, calFedHol]) cfgCal 2025 dbEmpty = (1, dbCalOut)
      ∧ recPizza ∈ dbCalOut.holidays
      ∧ recPizza ∉ dbEmpty.holidays)
    ∧ ∃ h ∈ [calFunHol, calFedHol], recPizza.title = h.name
        ∧ typeHas h "Federal" = false ∧ typeHas h "Public" = false
        ∧ keywordHit h.name = true :=
  ⟨⟨rfl, rfl, by decide, by decide⟩,
   c9_fun_keyword_filter cfgCal 2025 dbEmpty [calFunHol, calFedHol] 1 dbCalOut recPizza
     rfl rfl (by decide) (by decide)⟩

/-- C10: the custom-endpoint URL builder substitutes only the first
occurrence of each placeholder — if the endpoint holds `\x7byear\x7d`
twice, the second survives into the built URL; likewise a second
`\x7bcountry\x7d` survives. -/
theorem c10_first_occurrence_only (cfg : HolidayApiConfig) (year : Nat) :
    (∀ (a b c : List Char),
      cfg.endpoint.data = a ++ "{year}".data ++ b ++ "{year}".data ++ c →
      containsSeg "{country}".data
        (jsReplaceFirst cfg.endpoint "{year}" (natToDec year)).data = false →
      containsSeg "{year}".data (buildCustomUrl cfg year).data = true)
    ∧ (∀ (a b c : List Char),
      (jsReplaceFirst cfg.endpoint "{year}" (natToDec year)).data
        = a ++ "{country}".data ++ b ++ "{country}".data ++ c →
      containsSeg "{country}".data (buildCustomUrl cfg year).data = true) := by
  constructor
  · intro a b c hdec hnc
    show containsSeg "{year}".data
      (replaceFirstAux "{country}".data cfg.country.data
        (jsReplaceFirst cfg.endpoint "{year}" (natToDec year)).data) = true
    rw [replaceFirstAux_of_not_contains _ _ _ hnc]
    show containsSeg "{year}".data
      (replaceFirstAux "{year}".data (natToDec year).data cfg.endpoint.data) = true
    rw [hdec]
    have h2 := containsSeg_replaceFirstAux_two "{year}".data (natToDec year).data (by decide) a b c
    simpa [List.append_assoc] using h2
  · intro a b c hdec
    show containsSeg "{country}".data
      (replaceFirstAux "{country}".data cfg.country.data
        (jsReplaceFirst cfg.endpoint "{year}" (natToDec year)).data) = true
    rw [hdec]
    have h2 := containsSeg_replaceFirstAux_two "{country}".data cfg.country.data (by decide) a b c
    simpa [List.append_assoc] using h2

/-- C10 witness. -/
theorem c10_first_occurrence_only_witness :
    (cfgCustom.endpoint.data
        = "https://api.example.com/".data ++ "{year}".data ++ "/".data
            ++ "{year}".data ++ "/holidays".data
      ∧ containsSeg "{country}".data
          (jsReplaceFirst cfgCustom.endpoint "{year}" (natToDec 2026)).data = false
      ∧ containsSeg "{year}".data (buildCustomUrl cfgCustom 2026).data = true)
    ∧ ((jsReplaceFirst cfgCustomCty.endpoint "{year}" (natToDec 2026)).data
        = "https://api.example.com/".data ++ "{country}".data ++ "/x/".data
            ++ "{country}".data ++ "".data
      ∧ containsSeg "{country}".data (buildCustomUrl cfgCustomCty 2026).data = true) :=
  ⟨⟨by decide, by decide,
    (c10_first_occurrence_only cfgCustom 2026).1
      "https://api.example.com/".data "/".data "/holidays".data (by decide) (by decide)⟩,
   ⟨by decide,
    (c10_first_occurrence_only cfgCustomCty 2026).2
      "https://api.example.com/".data "/x/".data "".data (by decide)⟩⟩
